import Mathlib

/-!
Verification of the `ActiveShapeStore` synchronization engine
(`src/client/src/game/ui/ActiveShapeStore.ts`).

The store is a reactive facade in front of the selected shape: it mirrors the
shape's access descriptor, owner list, tracker list and aura list, and every
mutation carries a `SyncTo` tag deciding whether the mutation is forwarded to
the underlying shape (the "Domain Mutation Gateway") or is a pure UI echo.

The embedding below translates the store's state and every mutation of the
store into pure Lean functions.  Each operation returns the successor state
together with the list of gateway calls it performed and a flag recording
whether the original code would have thrown a `TypeError` (a non-null
assertion `layerManager.UUIDMap.get(x)!` on a missing key followed by a
method call).
-/

namespace ActiveShape

/-- The `SyncTo` enum from `core/comm/types` (values `SERVER`, `SHAPE`, `UI`). -/
inductive SyncTo where
  | server
  | shape
  | ui
deriving DecidableEq, Repr

/-- `ShapeAccess` from `game/shapes/owners`: the three-capability descriptor. -/
structure ShapeAccess where
  edit : Bool
  movement : Bool
  vision : Bool
deriving DecidableEq, Repr

/-- `ShapeOwner` from `game/shapes/owners`: an owner entry keyed by user. -/
structure ShapeOwner where
  user : String
  access : ShapeAccess
deriving DecidableEq, Repr

/-- Modelled from the spec: the `Tracker` interface (`game/shapes/interfaces`)
is not under `src/`; per the spec a tracker is a numeric counter with a stable
`uuid` identity.  We model the usual field set (uuid, name, value, maxvalue,
visible); note it has neither a `shape` nor a `temporary` field - those are
added by the UI projection `UiTracker`. -/
structure Tracker where
  uuid : String
  name : String
  value : Int
  maxvalue : Int
  visible : Bool
deriving DecidableEq, Repr

/-- `Partial<Tracker>`: every field optional; `Object.assign` overwrites
exactly the present fields. -/
structure TrackerDelta where
  uuid : Option String := none
  name : Option String := none
  value : Option Int := none
  maxvalue : Option Int := none
  visible : Option Bool := none
deriving DecidableEq, Repr

/-- Modelled from the spec: the `Aura` interface (`game/shapes/interfaces`) is
not under `src/`; per the spec it has the same shape as `Tracker` (identity,
owning object, `temporary` flag) but carries area/visual fields. -/
structure Aura where
  uuid : String
  name : String
  value : Int
  dim : Int
  visible : Bool
deriving DecidableEq, Repr

/-- `Partial<Aura>`. -/
structure AuraDelta where
  uuid : Option String := none
  name : Option String := none
  value : Option Int := none
  dim : Option Int := none
  visible : Option Bool := none
deriving DecidableEq, Repr

/-- `UiTracker = { shape: string; temporary: boolean } & Tracker`. -/
structure UiTracker where
  shape : String
  temporary : Bool
  uuid : String
  name : String
  value : Int
  maxvalue : Int
  visible : Bool
deriving DecidableEq, Repr

/-- `UiAura = { shape: string; temporary: boolean } & Aura`. -/
structure UiAura where
  shape : String
  temporary : Bool
  uuid : String
  name : String
  value : Int
  dim : Int
  visible : Bool
deriving DecidableEq, Repr

/-- One element of `toUiTrackers`: `{ shape, temporary: false, ...tracker }`
(the spread cannot override `shape`/`temporary` since `Tracker` has neither
field). -/
def toUiTracker (t : Tracker) (shape : String) : UiTracker :=
  ⟨shape, false, t.uuid, t.name, t.value, t.maxvalue, t.visible⟩

/-- `toUiTrackers` from the source. -/
def toUiTrackers (trackers : List Tracker) (shape : String) : List UiTracker :=
  trackers.map (fun t => toUiTracker t shape)

/-- One element of `toUiAuras`. -/
def toUiAura (a : Aura) (shape : String) : UiAura :=
  ⟨shape, false, a.uuid, a.name, a.value, a.dim, a.visible⟩

/-- `toUiAuras` from the source. -/
def toUiAuras (auras : List Aura) (shape : String) : List UiAura :=
  auras.map (fun a => toUiAura a shape)

/-- The underlying `Tracker` record of a `UiTracker` (what the gateway method
`shape.pushTracker` consumes). -/
def UiTracker.toTracker (t : UiTracker) : Tracker :=
  ⟨t.uuid, t.name, t.value, t.maxvalue, t.visible⟩

/-- The underlying `Aura` record of a `UiAura`. -/
def UiAura.toAura (a : UiAura) : Aura :=
  ⟨a.uuid, a.name, a.value, a.dim, a.visible⟩

/-- `Object.assign(tracker, delta)` for `delta : Partial<Tracker>`: present
fields overwrite; `shape` and `temporary` are untouched (not in `Tracker`). -/
def applyTrackerDelta (t : UiTracker) (d : TrackerDelta) : UiTracker :=
  { t with
    uuid := d.uuid.getD t.uuid
    name := d.name.getD t.name
    value := d.value.getD t.value
    maxvalue := d.maxvalue.getD t.maxvalue
    visible := d.visible.getD t.visible }

/-- `Object.assign(aura, delta)` for `delta : Partial<Aura>`. -/
def applyAuraDelta (a : UiAura) (d : AuraDelta) : UiAura :=
  { a with
    uuid := d.uuid.getD a.uuid
    name := d.name.getD a.name
    value := d.value.getD a.value
    dim := d.dim.getD a.dim
    visible := d.visible.getD a.visible }

/-- Modelled from the spec: `createEmptyTracker` (`game/shapes/tracker`, not
under `src/`) builds the trailing placeholder row: a tracker with a fresh
random uuid, empty fields, owned by the given shape and `temporary: true`.
The fresh uuid (a `uuidv4()` in the source) is modelled by a counter that the
state threads through. -/
def createEmptyTracker (shape : String) (n : Nat) : UiTracker :=
  ⟨shape, true, "empty-tracker-" ++ toString n, "", 0, 0, false⟩

/-- Modelled from the spec: `createEmptyAura` (`game/shapes/aura`, not under
`src/`), the aura counterpart of `createEmptyTracker`. -/
def createEmptyAura (shape : String) (n : Nat) : UiAura :=
  ⟨shape, true, "empty-aura-" ++ toString n, "", 0, 0, false⟩

/-- `Object.assign` with a `Partial<Tracker>` never touches the `shape`
projection field. -/
@[simp] theorem applyTrackerDelta_shape (t : UiTracker) (d : TrackerDelta) :
    (applyTrackerDelta t d).shape = t.shape := rfl

/-- `Object.assign` with a `Partial<Tracker>` never touches the `temporary`
projection field. -/
@[simp] theorem applyTrackerDelta_temporary (t : UiTracker) (d : TrackerDelta) :
    (applyTrackerDelta t d).temporary = t.temporary := rfl

/-- `Object.assign` with a `Partial<Aura>` never touches the `shape` field. -/
@[simp] theorem applyAuraDelta_shape (a : UiAura) (d : AuraDelta) :
    (applyAuraDelta a d).shape = a.shape := rfl

/-- `Object.assign` with a `Partial<Aura>` never touches the `temporary`
field. -/
@[simp] theorem applyAuraDelta_temporary (a : UiAura) (d : AuraDelta) :
    (applyAuraDelta a d).temporary = a.temporary := rfl

/-- A TypeScript `string | null` field that is *also* observably distinct from
`undefined` (the source compares `_parentUuid !== undefined` even though the
field's type never holds `undefined`). -/
inductive JsNullable (α : Type) where
  | undefinedV
  | nullV
  | val (a : α)
deriving DecidableEq, Repr

/-- A snapshot of the `Shape` fields `setActiveShape` reads: `uuid`,
`defaultAccess`, `owners`, `getTrackers(false)`, `getAuras(false)`. -/
structure ShapeSnapshot where
  uuid : String
  defaultAccess : ShapeAccess
  owners : List ShapeOwner
  trackers : List Tracker
  auras : List Aura
deriving DecidableEq, Repr

/-- The ambient collaborators read by the store: `gameStore.IS_DM`,
`gameStore.FAKE_PLAYER`, `gameStore.activeTokens`, `gameStore.username`,
`layerManager.UUIDMap` (modelled as the list of present shape uuids) and
`layerManager.getCompositeParent` (modelled as an association list). -/
structure Env where
  isDM : Bool
  fakePlayer : Bool
  activeTokens : List String
  username : String
  uuidMap : List String
  compositeParents : List (String × ShapeSnapshot)
deriving DecidableEq, Repr

/-- `layerManager.getCompositeParent(uuid)`. -/
def getCompositeParent (env : Env) (uuid : String) : Option ShapeSnapshot :=
  (env.compositeParents.find? (fun p => p.1 == uuid)).map (fun p => p.2)

/-- The private fields of `ActiveShapeStore`, plus the freshness counter for
placeholder uuids. -/
structure State where
  uuid : Option String
  parentUuid : JsNullable String
  lastUuid : Option String
  access : Option ShapeAccess
  owners : List ShapeOwner
  trackers : List UiTracker
  firstRealTrackerIndex : Nat
  auras : List UiAura
  firstRealAuraIndex : Nat
  fresh : Nat
deriving DecidableEq, Repr

/-- The field initializers of the class. -/
def initState : State :=
  ⟨none, JsNullable.nullV, none, none, [], [], 0, [], 0, 0⟩

/-- Fallback used to render the non-null assertion `this._access!` as a total
function; on every reachable state with a selection the access is present and
the fallback is irrelevant. -/
def accessFallback : ShapeAccess := ⟨false, false, false⟩

/-- The `hasEditAccess` getter. -/
def hasEditAccess (env : Env) (s : State) : Bool :=
  match s.uuid with
  | none => false
  | some u =>
      env.isDM ||
      (env.fakePlayer && env.activeTokens.contains u) ||
      (s.access.getD accessFallback).edit ||
      s.owners.any (fun o => o.user == env.username && o.access.edit == true)

/-- The `isComposite` getter: `this._parentUuid !== undefined`. -/
def isComposite (s : State) : Bool :=
  match s.parentUuid with
  | JsNullable.undefinedV => false
  | _ => true

/-- A call made through the Domain Mutation Gateway: a method invoked on the
shape obtained from `layerManager.UUIDMap`, with its arguments. -/
inductive GatewayCall where
  | updateDefaultOwner (shape : String) (access : ShapeAccess) (syncTo : SyncTo)
  | addOwner (shape : String) (owner : ShapeOwner) (syncTo : SyncTo)
  | updateOwner (shape : String) (owner : ShapeOwner) (syncTo : SyncTo)
  | removeOwner (shape : String) (user : String) (syncTo : SyncTo)
  | pushTracker (shape : String) (tracker : Tracker) (syncTo : SyncTo)
  | updateTracker (shape : String) (tracker : String) (delta : TrackerDelta) (syncTo : SyncTo)
  | removeTracker (shape : String) (tracker : String) (syncTo : SyncTo)
  | pushAura (shape : String) (aura : Aura) (syncTo : SyncTo)
  | updateAura (shape : String) (aura : String) (delta : AuraDelta) (syncTo : SyncTo)
  | removeAura (shape : String) (aura : String) (syncTo : SyncTo)
deriving DecidableEq, Repr

/-- Result of one store mutation: the successor state, the gateway calls made,
and whether the source would have thrown (non-null assertion on a uuid missing
from `UUIDMap` followed by a method call). -/
structure OpResult where
  state : State
  calls : List GatewayCall
  throws : Bool
deriving DecidableEq, Repr

/-- Find the first element satisfying `p` together with its index. -/
def findWithIdx (p : α → Bool) : List α → Option (Nat × α)
  | [] => none
  | x :: xs =>
      if p x then some (0, x)
      else (findWithIdx p xs).map (fun r => (r.1 + 1, r.2))

/-- JavaScript `arr.splice(i, 0, a)` for a non-negative (clamped) index. -/
def spliceInsert (l : List α) (i : Nat) (a : α) : List α :=
  l.take i ++ a :: l.drop i

/-- The `setDefaultAccess` mutation. -/
def setDefaultAccess (env : Env) (s : State) (access : ShapeAccess) (syncTo : SyncTo) :
    OpResult :=
  match s.uuid with
  | none => ⟨s, [], false⟩
  | some u =>
      if ¬ hasEditAccess env s then ⟨s, [], false⟩
      else
        let s' := { s with access := some access }
        if syncTo ≠ SyncTo.ui then
          if env.uuidMap.contains u then
            ⟨s', [GatewayCall.updateDefaultOwner u access syncTo], false⟩
          else ⟨s', [], true⟩
        else ⟨s', [], false⟩

/-- The `setDefaultEditAccess` mutation. -/
def setDefaultEditAccess (env : Env) (s : State) (editAccess : Bool) (syncTo : SyncTo) :
    OpResult :=
  match s.uuid with
  | none => ⟨s, [], false⟩
  | some u =>
      if ¬ hasEditAccess env s then ⟨s, [], false⟩
      else
        let a0 := s.access.getD accessFallback
        let a1 := { a0 with edit := editAccess }
        let a2 := if editAccess then { a1 with movement := true, vision := true } else a1
        let s' := { s with access := some a2 }
        if syncTo ≠ SyncTo.ui then
          if env.uuidMap.contains u then
            ⟨s', [GatewayCall.updateDefaultOwner u a2 syncTo], false⟩
          else ⟨s', [], true⟩
        else ⟨s', [], false⟩

/-- The `setDefaultMovementAccess` mutation. -/
def setDefaultMovementAccess (env : Env) (s : State) (movementAccess : Bool) (syncTo : SyncTo) :
    OpResult :=
  match s.uuid with
  | none => ⟨s, [], false⟩
  | some u =>
      if ¬ hasEditAccess env s then ⟨s, [], false⟩
      else
        let a0 := s.access.getD accessFallback
        let a1 := { a0 with movement := movementAccess }
        let a2 := if movementAccess then { a1 with vision := true } else { a1 with edit := false }
        let s' := { s with access := some a2 }
        if syncTo ≠ SyncTo.ui then
          if env.uuidMap.contains u then
            ⟨s', [GatewayCall.updateDefaultOwner u a2 syncTo], false⟩
          else ⟨s', [], true⟩
        else ⟨s', [], false⟩

/-- The `setDefaultVisionAccess` mutation. -/
def setDefaultVisionAccess (env : Env) (s : State) (visionAccess : Bool) (syncTo : SyncTo) :
    OpResult :=
  match s.uuid with
  | none => ⟨s, [], false⟩
  | some u =>
      if ¬ hasEditAccess env s then ⟨s, [], false⟩
      else
        let a0 := s.access.getD accessFallback
        let a1 := { a0 with vision := visionAccess }
        let a2 := if ¬ visionAccess then { a1 with movement := false, edit := false } else a1
        let s' := { s with access := some a2 }
        if syncTo ≠ SyncTo.ui then
          if env.uuidMap.contains u then
            ⟨s', [GatewayCall.updateDefaultOwner u a2 syncTo], false⟩
          else ⟨s', [], true⟩
        else ⟨s', [], false⟩

/-- The `addOwner` mutation (note: no duplicate-user check, a plain push). -/
def addOwner (env : Env) (s : State) (owner : ShapeOwner) (syncTo : SyncTo) : OpResult :=
  match s.uuid with
  | none => ⟨s, [], false⟩
  | some u =>
      if ¬ hasEditAccess env s then ⟨s, [], false⟩
      else
        let s' := { s with owners := s.owners ++ [owner] }
        if syncTo ≠ SyncTo.ui then
          if env.uuidMap.contains u then
            ⟨s', [GatewayCall.addOwner u owner syncTo], false⟩
          else ⟨s', [], true⟩
        else ⟨s', [], false⟩

/-- The `updateOwner` mutation: find the entry with the same user, replace its
fields (`Object.assign` with a full `ShapeOwner` payload), no-op if absent. -/
def updateOwner (env : Env) (s : State) (owner : ShapeOwner) (syncTo : SyncTo) : OpResult :=
  match s.uuid with
  | none => ⟨s, [], false⟩
  | some u =>
      if ¬ hasEditAccess env s then ⟨s, [], false⟩
      else
        match findWithIdx (fun o => o.user == owner.user) s.owners with
        | none => ⟨s, [], false⟩
        | some (i, _) =>
            let s' := { s with owners := s.owners.set i owner }
            if syncTo ≠ SyncTo.ui then
              if env.uuidMap.contains u then
                ⟨s', [GatewayCall.updateOwner u owner syncTo], false⟩
              else ⟨s', [], true⟩
            else ⟨s', [], false⟩

/-- The `removeOwner` mutation: filter by user; forwarded even when the user
was not present (the source performs no presence check). -/
def removeOwner (env : Env) (s : State) (user : String) (syncTo : SyncTo) : OpResult :=
  match s.uuid with
  | none => ⟨s, [], false⟩
  | some u =>
      if ¬ hasEditAccess env s then ⟨s, [], false⟩
      else
        let s' := { s with owners := s.owners.filter (fun o => o.user ≠ user) }
        if syncTo ≠ SyncTo.ui then
          if env.uuidMap.contains u then
            ⟨s', [GatewayCall.removeOwner u user syncTo], false⟩
          else ⟨s', [], true⟩
        else ⟨s', [], false⟩

/-- The forwarding tail of `pushTracker`: `if (data.syncTo !== SyncTo.UI) {
layerManager.UUIDMap.get(data.shape)!.pushTracker(data.tracker, data.syncTo) }`
run on the already-updated state. -/
def forwardPushTracker (env : Env) (s' : State) (tracker : Tracker) (shape : String)
    (syncTo : SyncTo) : OpResult :=
  if syncTo ≠ SyncTo.ui then
    if env.uuidMap.contains shape then
      ⟨s', [GatewayCall.pushTracker shape tracker syncTo], false⟩
    else ⟨s', [], true⟩
  else ⟨s', [], false⟩

/-- The `pushTracker` mutation: insert before the trailing placeholder when the
payload addresses the selection, at the cursor (incrementing it) when it
addresses the parent, otherwise ignore. -/
def pushTracker (env : Env) (s : State) (tracker : Tracker) (shape : String) (syncTo : SyncTo) :
    OpResult :=
  if ¬ hasEditAccess env s then ⟨s, [], false⟩
  else
    let ut := toUiTracker tracker shape
    if s.uuid = some shape then
      forwardPushTracker env
        { s with trackers := spliceInsert s.trackers (s.trackers.length - 1) ut }
        tracker shape syncTo
    else if s.parentUuid = JsNullable.val shape then
      forwardPushTracker env
        { s with
          trackers := spliceInsert s.trackers s.firstRealTrackerIndex ut
          firstRealTrackerIndex := s.firstRealTrackerIndex + 1 }
        tracker shape syncTo
    else ⟨s, [], false⟩

/-- The `updateTracker` mutation: locate by uuid, merge the delta in place;
if the entity is the temporary placeholder and this is not a UI echo, promote
it (clear `temporary`, forward as a brand-new push, append a fresh
placeholder), otherwise forward a plain update. -/
def updateTracker (env : Env) (s : State) (tid : String) (delta : TrackerDelta)
    (syncTo : SyncTo) : OpResult :=
  if ¬ hasEditAccess env s then ⟨s, [], false⟩
  else
    match findWithIdx (fun t => t.uuid == tid) s.trackers with
    | none => ⟨s, [], false⟩
    | some (i, t0) =>
        let t1 := applyTrackerDelta t0 delta
        let s1 := { s with trackers := s.trackers.set i t1 }
        if ¬ env.uuidMap.contains t1.shape then ⟨s1, [], false⟩
        else if syncTo ≠ SyncTo.ui then
          if t1.temporary then
            let t2 := { t1 with temporary := false }
            let s2 := { s1 with trackers := s1.trackers.set i t2 }
            ⟨{ s2 with
                trackers := s2.trackers ++ [createEmptyTracker (s.uuid.getD "") s.fresh]
                fresh := s.fresh + 1 },
              [GatewayCall.pushTracker t2.shape t2.toTracker SyncTo.server], false⟩
          else
            ⟨s1, [GatewayCall.updateTracker t1.shape tid delta syncTo], false⟩
        else ⟨s1, [], false⟩

/-- The `removeTracker` mutation: locate by uuid, splice out, decrement the
cursor when the removed index was below it; forward unless a UI echo. -/
def removeTracker (env : Env) (s : State) (tid : String) (syncTo : SyncTo) : OpResult :=
  if ¬ hasEditAccess env s then ⟨s, [], false⟩
  else
    match findWithIdx (fun t => t.uuid == tid) s.trackers with
    | none => ⟨s, [], false⟩
    | some (i, t) =>
        let s1 := { s with
          trackers := s.trackers.eraseIdx i
          firstRealTrackerIndex :=
            if i < s.firstRealTrackerIndex then s.firstRealTrackerIndex - 1
            else s.firstRealTrackerIndex }
        if ¬ env.uuidMap.contains t.shape then ⟨s1, [], false⟩
        else if syncTo ≠ SyncTo.ui then
          ⟨s1, [GatewayCall.removeTracker t.shape tid syncTo], false⟩
        else ⟨s1, [], false⟩

/-- The forwarding tail of `pushAura`. -/
def forwardPushAura (env : Env) (s' : State) (aura : Aura) (shape : String)
    (syncTo : SyncTo) : OpResult :=
  if syncTo ≠ SyncTo.ui then
    if env.uuidMap.contains shape then
      ⟨s', [GatewayCall.pushAura shape aura syncTo], false⟩
    else ⟨s', [], true⟩
  else ⟨s', [], false⟩

/-- The `pushAura` mutation (structurally identical to `pushTracker`). -/
def pushAura (env : Env) (s : State) (aura : Aura) (shape : String) (syncTo : SyncTo) :
    OpResult :=
  if ¬ hasEditAccess env s then ⟨s, [], false⟩
  else
    let ua := toUiAura aura shape
    if s.uuid = some shape then
      forwardPushAura env
        { s with auras := spliceInsert s.auras (s.auras.length - 1) ua }
        aura shape syncTo
    else if s.parentUuid = JsNullable.val shape then
      forwardPushAura env
        { s with
          auras := spliceInsert s.auras s.firstRealAuraIndex ua
          firstRealAuraIndex := s.firstRealAuraIndex + 1 }
        aura shape syncTo
    else ⟨s, [], false⟩

/-- The `updateAura` mutation (structurally identical to `updateTracker`). -/
def updateAura (env : Env) (s : State) (aid : String) (delta : AuraDelta)
    (syncTo : SyncTo) : OpResult :=
  if ¬ hasEditAccess env s then ⟨s, [], false⟩
  else
    match findWithIdx (fun a => a.uuid == aid) s.auras with
    | none => ⟨s, [], false⟩
    | some (i, a0) =>
        let a1 := applyAuraDelta a0 delta
        let s1 := { s with auras := s.auras.set i a1 }
        if ¬ env.uuidMap.contains a1.shape then ⟨s1, [], false⟩
        else if syncTo ≠ SyncTo.ui then
          if a1.temporary then
            let a2 := { a1 with temporary := false }
            let s2 := { s1 with auras := s1.auras.set i a2 }
            ⟨{ s2 with
                auras := s2.auras ++ [createEmptyAura (s.uuid.getD "") s.fresh]
                fresh := s.fresh + 1 },
              [GatewayCall.pushAura a2.shape a2.toAura SyncTo.server], false⟩
          else
            ⟨s1, [GatewayCall.updateAura a1.shape aid delta syncTo], false⟩
        else ⟨s1, [], false⟩

/-- The `removeAura` mutation (structurally identical to `removeTracker`). -/
def removeAura (env : Env) (s : State) (aid : String) (syncTo : SyncTo) : OpResult :=
  if ¬ hasEditAccess env s then ⟨s, [], false⟩
  else
    match findWithIdx (fun a => a.uuid == aid) s.auras with
    | none => ⟨s, [], false⟩
    | some (i, a) =>
        let s1 := { s with
          auras := s.auras.eraseIdx i
          firstRealAuraIndex :=
            if i < s.firstRealAuraIndex then s.firstRealAuraIndex - 1
            else s.firstRealAuraIndex }
        if ¬ env.uuidMap.contains a.shape then ⟨s1, [], false⟩
        else if syncTo ≠ SyncTo.ui then
          ⟨s1, [GatewayCall.removeAura a.shape aid syncTo], false⟩
        else ⟨s1, [], false⟩

/-- The `setActiveShape` mutation.  Note that when the selected shape has no
composite parent the two cursors are *not* reset (the `if (parent !==
undefined)` block is the only place they are written). -/
def setActiveShape (env : Env) (s : State) (shape : ShapeSnapshot) : State :=
  let parent := getCompositeParent env shape.uuid
  let s1 := { s with
    uuid := some shape.uuid
    parentUuid := match parent with
      | some p => JsNullable.val p.uuid
      | none => JsNullable.nullV
    access := some shape.defaultAccess
    owners := shape.owners
    trackers := ([] : List UiTracker)
    auras := ([] : List UiAura) }
  let s2 := match parent with
    | some p =>
        let pt := toUiTrackers p.trackers p.uuid
        let pa := toUiAuras p.auras p.uuid
        { s1 with
          trackers := pt
          firstRealTrackerIndex := pt.length
          auras := pa
          firstRealAuraIndex := pa.length }
    | none => s1
  { s2 with
    trackers := s2.trackers ++ toUiTrackers shape.trackers shape.uuid ++
      [createEmptyTracker shape.uuid s2.fresh]
    auras := s2.auras ++ toUiAuras shape.auras shape.uuid ++
      [createEmptyAura shape.uuid (s2.fresh + 1)]
    fresh := s2.fresh + 2 }

/-- The `clear` mutation. -/
def clear (s : State) : State :=
  { s with
    lastUuid := s.uuid
    uuid := none
    parentUuid := JsNullable.nullV
    access := none
    owners := []
    firstRealTrackerIndex := 0
    trackers := []
    firstRealAuraIndex := 0
    auras := [] }

/-- The mutating operations of the engine (everything except the lifecycle
mutations `setActiveShape`/`clear`), with their payloads. -/
inductive Op where
  | setDefaultAccess (access : ShapeAccess) (syncTo : SyncTo)
  | setDefaultEditAccess (editAccess : Bool) (syncTo : SyncTo)
  | setDefaultMovementAccess (movementAccess : Bool) (syncTo : SyncTo)
  | setDefaultVisionAccess (visionAccess : Bool) (syncTo : SyncTo)
  | addOwner (owner : ShapeOwner) (syncTo : SyncTo)
  | updateOwner (owner : ShapeOwner) (syncTo : SyncTo)
  | removeOwner (owner : String) (syncTo : SyncTo)
  | pushTracker (tracker : Tracker) (shape : String) (syncTo : SyncTo)
  | updateTracker (tracker : String) (delta : TrackerDelta) (syncTo : SyncTo)
  | removeTracker (tracker : String) (syncTo : SyncTo)
  | pushAura (aura : Aura) (shape : String) (syncTo : SyncTo)
  | updateAura (aura : String) (delta : AuraDelta) (syncTo : SyncTo)
  | removeAura (aura : String) (syncTo : SyncTo)
deriving DecidableEq, Repr

/-- The sync tag carried by an operation. -/
def Op.syncTo : Op → SyncTo
  | .setDefaultAccess _ t => t
  | .setDefaultEditAccess _ t => t
  | .setDefaultMovementAccess _ t => t
  | .setDefaultVisionAccess _ t => t
  | .addOwner _ t => t
  | .updateOwner _ t => t
  | .removeOwner _ t => t
  | .pushTracker _ _ t => t
  | .updateTracker _ _ t => t
  | .removeTracker _ t => t
  | .pushAura _ _ t => t
  | .updateAura _ _ t => t
  | .removeAura _ t => t

/-- Dispatch an operation to its implementation. -/
def applyOp (env : Env) (s : State) : Op → OpResult
  | .setDefaultAccess a t => setDefaultAccess env s a t
  | .setDefaultEditAccess b t => setDefaultEditAccess env s b t
  | .setDefaultMovementAccess b t => setDefaultMovementAccess env s b t
  | .setDefaultVisionAccess b t => setDefaultVisionAccess env s b t
  | .addOwner o t => addOwner env s o t
  | .updateOwner o t => updateOwner env s o t
  | .removeOwner u t => removeOwner env s u t
  | .pushTracker tr sh t => pushTracker env s tr sh t
  | .updateTracker tid d t => updateTracker env s tid d t
  | .removeTracker tid t => removeTracker env s tid t
  | .pushAura a sh t => pushAura env s a sh t
  | .updateAura aid d t => updateAura env s aid d t
  | .removeAura aid t => removeAura env s aid t

/-- Run a sequence of operations, each under its own environment (the ambient
stores may change between events). -/
def applyOpsE (s : State) : List (Env × Op) → State
  | [] => s
  | p :: rest => applyOpsE (applyOp p.1 s p.2).state rest

/-- The states reachable from the initial store state through the public
mutation surface. -/
inductive Reachable : State → Prop where
  | init : Reachable initState
  | step (env : Env) (op : Op) {s : State} : Reachable s → Reachable (applyOp env s op).state
  | select (env : Env) (shape : ShapeSnapshot) {s : State} :
      Reachable s → Reachable (setActiveShape env s shape)
  | clearStep {s : State} : Reachable s → Reachable (clear s)

end ActiveShape

namespace ActiveShape

/-! ## Helper lemmas -/

theorem hasEditAccess_uuid_isSome {env : Env} {s : State} (h : hasEditAccess env s = true) :
    ∃ u, s.uuid = some u := by
  unfold hasEditAccess at h
  cases hu : s.uuid with
  | none => rw [hu] at h; simp at h
  | some u => exact ⟨u, rfl⟩

theorem findWithIdx_some {α : Type} {p : α → Bool} {l : List α} {i : Nat} {x : α}
    (h : findWithIdx p l = some (i, x)) :
    p x = true ∧ ∃ l1 l2, l = l1 ++ x :: l2 ∧ l1.length = i ∧ ∀ y ∈ l1, p y = false := by
  induction l generalizing i with
  | nil => simp [findWithIdx] at h
  | cons a as ih =>
    rw [findWithIdx] at h
    by_cases hpa : p a
    · simp only [hpa, if_true, Option.some.injEq, Prod.mk.injEq] at h
      obtain ⟨hi, hx⟩ := h
      subst hx
      exact ⟨hpa, [], as, rfl, by simpa using hi, by simp⟩
    · simp only [hpa, if_false, Bool.false_eq_true, Option.map_eq_some'] at h
      obtain ⟨⟨j, y⟩, hfind, heq⟩ := h
      obtain ⟨h1, h2⟩ := Prod.mk.injEq .. ▸ heq
      subst h2
      obtain ⟨hpy, l1, l2, hdecomp, hlen, hall⟩ := ih hfind
      refine ⟨hpy, a :: l1, l2, by simp [hdecomp], by simp [hlen, ← h1], ?_⟩
      intro y hy
      rcases List.mem_cons.mp hy with rfl | hy'
      · simpa using hpa
      · exact hall y hy'

/-- Frame lemma: no engine operation changes `_parentUuid` (only
`setActiveShape`/`clear` write it). -/
theorem applyOp_parentUuid (env : Env) (s : State) (op : Op) :
    (applyOp env s op).state.parentUuid = s.parentUuid := by
  cases op <;>
    simp only [applyOp, setDefaultAccess, setDefaultEditAccess, setDefaultMovementAccess,
      setDefaultVisionAccess, addOwner, updateOwner, removeOwner, pushTracker, updateTracker,
      removeTracker, pushAura, updateAura, removeAura, forwardPushTracker, forwardPushAura] <;>
    (repeat' split) <;> rfl

/-- Frame lemma: no engine operation changes `_uuid`. -/
theorem applyOp_uuid (env : Env) (s : State) (op : Op) :
    (applyOp env s op).state.uuid = s.uuid := by
  cases op <;>
    simp only [applyOp, setDefaultAccess, setDefaultEditAccess, setDefaultMovementAccess,
      setDefaultVisionAccess, addOwner, updateOwner, removeOwner, pushTracker, updateTracker,
      removeTracker, pushAura, updateAura, removeAura, forwardPushTracker, forwardPushAura] <;>
    (repeat' split) <;> rfl

/-! ## Concrete fixtures shared by witnesses and counterexamples -/

/-- A DM viewer with three shapes present in the UUID map and no composite
relations. -/
def envDM : Env := ⟨true, false, [], "viewer", ["A", "B", "P"], []⟩

/-- A simple shape `A` with full default access and no trackers/auras. -/
def snapA : ShapeSnapshot := ⟨"A", ⟨true, true, true⟩, [], [], []⟩

/-- A parent shape `P` with one tracker `PT`. -/
def snapP : ShapeSnapshot := ⟨"P", ⟨false, false, false⟩, [], [⟨"PT", "hp", 5, 10, true⟩], []⟩

/-- Like `envDM`, but `B` resolves to composite parent `P`. -/
def envB : Env := { envDM with compositeParents := [("B", snapP)] }

/-- A composite child `B` with full default access and no own trackers. -/
def snapB : ShapeSnapshot := ⟨"B", ⟨true, true, true⟩, [], [], []⟩

/-- The state after selecting `A` from the initial state. -/
def sA : State := setActiveShape envDM initState snapA

/-- The state after selecting the composite child `B` from the initial state. -/
def sB : State := setActiveShape envB initState snapB

/-! ## C10: `isComposite` is constantly true -/

/-- C10: in every reachable state the exposed `isComposite` getter returns
`true` - including when no object is selected and when the selected object has
no composite parent - because `_parentUuid` is initialized to and reset to
`null` while `isComposite` compares it against `undefined`. -/
theorem isComposite_always_true {s : State} (h : Reachable s) : isComposite s = true := by
  have key : s.parentUuid ≠ JsNullable.undefinedV := by
    induction h with
    | init => simp [initState]
    | step env op h ih => rw [applyOp_parentUuid]; exact ih
    | select env shape h ih =>
        unfold setActiveShape
        cases getCompositeParent env shape.uuid <;> simp
    | clearStep h ih => simp [clear]
  unfold isComposite
  cases hp : s.parentUuid with
  | undefinedV => exact absurd hp key
  | nullV => rfl
  | val a => rfl

/-- Witness for C10 at concrete reachable states: the initial state (nothing
selected) and a selected non-composite shape both report `isComposite`. -/
theorem isComposite_always_true_witness :
    isComposite initState = true ∧ isComposite sA = true :=
  ⟨isComposite_always_true Reachable.init,
   isComposite_always_true (Reachable.select envDM snapA Reachable.init)⟩

/-! ## C2: partial-order propagation of the default-access setters -/

/-- C2: on any state with a present access descriptor, when the permission
gate passes and for every sync tag: `setDefaultEditAccess true` yields
movement and vision true; `setDefaultMovementAccess false` clears edit;
`setDefaultVisionAccess false` clears movement and edit;
`setDefaultMovementAccess true` sets vision. -/
theorem default_access_propagation (env : Env) (s : State) (a : ShapeAccess)
    (hgate : hasEditAccess env s = true) (ha : s.access = some a) (t : SyncTo) :
    (setDefaultEditAccess env s true t).state.access = some ⟨true, true, true⟩ ∧
    (setDefaultMovementAccess env s false t).state.access = some ⟨false, false, a.vision⟩ ∧
    (setDefaultVisionAccess env s false t).state.access = some ⟨false, false, false⟩ ∧
    (setDefaultMovementAccess env s true t).state.access = some ⟨a.edit, true, true⟩ := by
  obtain ⟨u, hu⟩ := hasEditAccess_uuid_isSome hgate
  refine ⟨?_, ?_, ?_, ?_⟩ <;>
    · simp only [setDefaultEditAccess, setDefaultMovementAccess, setDefaultVisionAccess, hu,
        hgate, ha, Option.getD_some, not_true_eq_false, if_false]
      (repeat' split) <;> simp_all

/-- Witness for C2 at a concrete selected state. -/
theorem default_access_propagation_witness :
    (setDefaultEditAccess envDM sA true SyncTo.server).state.access =
      some ⟨true, true, true⟩ ∧
    (setDefaultMovementAccess envDM sA false SyncTo.server).state.access =
      some ⟨false, false, true⟩ ∧
    (setDefaultVisionAccess envDM sA false SyncTo.server).state.access =
      some ⟨false, false, false⟩ ∧
    (setDefaultMovementAccess envDM sA true SyncTo.server).state.access =
      some ⟨true, true, true⟩ :=
  default_access_propagation envDM sA ⟨true, true, true⟩ (by decide) (by decide) SyncTo.server

end ActiveShape

namespace ActiveShape

/-! ## C1: when is the gateway called -/

/-- Whether the currently selected uuid is present in `layerManager.UUIDMap`
(the non-null assertion `UUIDMap.get(this._uuid)!` succeeds). -/
def selectedInMap (env : Env) (s : State) : Bool :=
  match s.uuid with
  | some u => env.uuidMap.contains u
  | none => false

/-- The exact guard under which a single invocation of an engine operation
reaches its gateway call: edit access, a found/applicable target, the
addressed shape present in the UUID map, and a sync tag other than
`SyncTo.UI`. -/
def opForwards (env : Env) (s : State) : Op → Bool
  | .setDefaultAccess _ t =>
      hasEditAccess env s && selectedInMap env s && (t != SyncTo.ui)
  | .setDefaultEditAccess _ t =>
      hasEditAccess env s && selectedInMap env s && (t != SyncTo.ui)
  | .setDefaultMovementAccess _ t =>
      hasEditAccess env s && selectedInMap env s && (t != SyncTo.ui)
  | .setDefaultVisionAccess _ t =>
      hasEditAccess env s && selectedInMap env s && (t != SyncTo.ui)
  | .addOwner _ t =>
      hasEditAccess env s && selectedInMap env s && (t != SyncTo.ui)
  | .updateOwner o t =>
      hasEditAccess env s && (findWithIdx (fun x => x.user == o.user) s.owners).isSome &&
        selectedInMap env s && (t != SyncTo.ui)
  | .removeOwner _ t =>
      hasEditAccess env s && selectedInMap env s && (t != SyncTo.ui)
  | .pushTracker _ sh t =>
      hasEditAccess env s &&
        (decide (s.uuid = some sh) || decide (s.parentUuid = JsNullable.val sh)) &&
        env.uuidMap.contains sh && (t != SyncTo.ui)
  | .updateTracker tid _ t =>
      hasEditAccess env s &&
        (match findWithIdx (fun x => x.uuid == tid) s.trackers with
         | some r => env.uuidMap.contains r.2.shape
         | none => false) && (t != SyncTo.ui)
  | .removeTracker tid t =>
      hasEditAccess env s &&
        (match findWithIdx (fun x => x.uuid == tid) s.trackers with
         | some r => env.uuidMap.contains r.2.shape
         | none => false) && (t != SyncTo.ui)
  | .pushAura _ sh t =>
      hasEditAccess env s &&
        (decide (s.uuid = some sh) || decide (s.parentUuid = JsNullable.val sh)) &&
        env.uuidMap.contains sh && (t != SyncTo.ui)
  | .updateAura aid _ t =>
      hasEditAccess env s &&
        (match findWithIdx (fun x => x.uuid == aid) s.auras with
         | some r => env.uuidMap.contains r.2.shape
         | none => false) && (t != SyncTo.ui)
  | .removeAura aid t =>
      hasEditAccess env s &&
        (match findWithIdx (fun x => x.uuid == aid) s.auras with
         | some r => env.uuidMap.contains r.2.shape
         | none => false) && (t != SyncTo.ui)

/-- C1 (amended): every engine operation performs exactly one gateway call
when its full guard (`opForwards`: edit access, applicable/found target,
addressed shape in the UUID map and non-`UI` tag) holds and none otherwise;
in particular a `SyncTo.UI`-tagged (echo) mutation never triggers a gateway
call, and no invocation ever makes more than one call. -/
theorem gateway_forward_iff (env : Env) (s : State) (op : Op) :
    (applyOp env s op).calls.length = (if opForwards env s op then 1 else 0) ∧
    (op.syncTo = SyncTo.ui → opForwards env s op = false) := by
  refine ⟨?_, ?_⟩
  · cases op <;>
      simp only [applyOp, setDefaultAccess, setDefaultEditAccess, setDefaultMovementAccess,
        setDefaultVisionAccess, addOwner, updateOwner, removeOwner, pushTracker,
        updateTracker, removeTracker, pushAura, updateAura, removeAura,
        forwardPushTracker, forwardPushAura, opForwards] <;>
      (repeat' split) <;> simp_all [selectedInMap]
  · intro h
    cases op <;> simp only [Op.syncTo] at h <;> subst h <;> simp [opForwards]

/-- C1 as stated is false: on the initial state (nothing selected) a
`setDefaultEditAccess` tagged `SyncTo.SERVER` is not the UI-echo tag, yet no
gateway call is made (the guard fails first). -/
theorem gateway_not_iff_syncTo :
    (applyOp envDM initState (Op.setDefaultEditAccess true SyncTo.server)).calls = [] ∧
    SyncTo.server ≠ SyncTo.ui := by
  constructor
  · rfl
  · decide

/-! ## C8: insertion points of push -/

/-- C8: for every `pushTracker`/`pushAura` invocation passing the permission
gate: a payload addressing the selected object is inserted at `length - 1`
(immediately before the trailing placeholder) and leaves the cursor alone; a
payload addressing the parent is inserted at the cursor, which is
incremented; any other payload leaves the state unchanged and makes no
gateway call. -/
theorem push_insertion_spec (env : Env) (s : State) (tr : Tracker) (au : Aura)
    (shape : String) (t : SyncTo) (hgate : hasEditAccess env s = true) :
    (s.uuid = some shape →
      (pushTracker env s tr shape t).state.trackers =
        s.trackers.take (s.trackers.length - 1) ++
          toUiTracker tr shape :: s.trackers.drop (s.trackers.length - 1) ∧
      (pushTracker env s tr shape t).state.firstRealTrackerIndex =
        s.firstRealTrackerIndex ∧
      (pushAura env s au shape t).state.auras =
        s.auras.take (s.auras.length - 1) ++
          toUiAura au shape :: s.auras.drop (s.auras.length - 1) ∧
      (pushAura env s au shape t).state.firstRealAuraIndex = s.firstRealAuraIndex) ∧
    (s.uuid ≠ some shape → s.parentUuid = JsNullable.val shape →
      (pushTracker env s tr shape t).state.trackers =
        s.trackers.take s.firstRealTrackerIndex ++
          toUiTracker tr shape :: s.trackers.drop s.firstRealTrackerIndex ∧
      (pushTracker env s tr shape t).state.firstRealTrackerIndex =
        s.firstRealTrackerIndex + 1 ∧
      (pushAura env s au shape t).state.auras =
        s.auras.take s.firstRealAuraIndex ++
          toUiAura au shape :: s.auras.drop s.firstRealAuraIndex ∧
      (pushAura env s au shape t).state.firstRealAuraIndex = s.firstRealAuraIndex + 1) ∧
    (s.uuid ≠ some shape → s.parentUuid ≠ JsNullable.val shape →
      pushTracker env s tr shape t = ⟨s, [], false⟩ ∧
      pushAura env s au shape t = ⟨s, [], false⟩) := by
  refine ⟨fun h1 => ?_, fun h1 h2 => ?_, fun h1 h2 => ?_⟩
  · simp only [pushTracker, pushAura, forwardPushTracker, forwardPushAura, spliceInsert,
      hgate, h1, not_true_eq_false, if_false, if_true]
    (repeat' split) <;> simp_all
  · simp only [pushTracker, pushAura, forwardPushTracker, forwardPushAura, spliceInsert,
      hgate, h1, h2, not_true_eq_false, if_false, if_true]
    (repeat' split) <;> simp_all
  · simp only [pushTracker, pushAura, forwardPushTracker, forwardPushAura, spliceInsert,
      hgate, h1, h2, not_true_eq_false, if_false, if_true]
    (repeat' split) <;> simp_all

/-- Witness for C8: pushing a tracker addressed to the selected object `A`
lands immediately before the placeholder, and pushing one addressed to an
unrelated shape is ignored. -/
theorem push_insertion_spec_witness :
    ((pushTracker envDM sA ⟨"T2", "hp", 1, 2, true⟩ "A" SyncTo.server).state.trackers =
      sA.trackers.take (sA.trackers.length - 1) ++
        toUiTracker ⟨"T2", "hp", 1, 2, true⟩ "A" :: sA.trackers.drop (sA.trackers.length - 1) ∧
      (pushTracker envDM sA ⟨"T2", "hp", 1, 2, true⟩ "A" SyncTo.server).state.firstRealTrackerIndex =
        sA.firstRealTrackerIndex ∧
      (pushAura envDM sA ⟨"AU", "glow", 3, 1, true⟩ "A" SyncTo.server).state.auras =
        sA.auras.take (sA.auras.length - 1) ++
          toUiAura ⟨"AU", "glow", 3, 1, true⟩ "A" :: sA.auras.drop (sA.auras.length - 1) ∧
      (pushAura envDM sA ⟨"AU", "glow", 3, 1, true⟩ "A" SyncTo.server).state.firstRealAuraIndex =
        sA.firstRealAuraIndex) ∧
    (pushTracker envDM sA ⟨"T2", "hp", 1, 2, true⟩ "Z" SyncTo.server = ⟨sA, [], false⟩ ∧
      pushAura envDM sA ⟨"AU", "glow", 3, 1, true⟩ "Z" SyncTo.server = ⟨sA, [], false⟩) :=
  ⟨(push_insertion_spec envDM sA ⟨"T2", "hp", 1, 2, true⟩ ⟨"AU", "glow", 3, 1, true⟩ "A"
      SyncTo.server (by decide)).1 (by decide),
   (push_insertion_spec envDM sA ⟨"T2", "hp", 1, 2, true⟩ ⟨"AU", "glow", 3, 1, true⟩ "Z"
      SyncTo.server (by decide)).2.2 (by decide) (by decide)⟩

end ActiveShape

namespace ActiveShape

/-! ## C7: silent no-ops -/

/-- A DM viewer like `envDM` but with an empty `UUIDMap` (e.g. after the
selected shape has been removed). -/
def envNoMap : Env := ⟨true, false, [], "viewer", [], []⟩

/-- C7 (amended): every mutating operation is an exact silent no-op (state
unchanged, no gateway call, no throw) when effective edit access is false -
in particular when nothing is selected - and likewise when the targeted
owner/tracker/aura id is absent, for all presence-checked operations
(`updateOwner`, `updateTracker`, `removeTracker`, `updateAura`, `removeAura`).
The exception is `removeOwner`, which performs no presence check: with an
absent user it leaves the state unchanged but still makes a gateway call when
the tag is not `SyncTo.UI` and the selection is in the UUID map. -/
theorem silent_noop_guards (env : Env) (s : State) :
    (∀ op : Op, hasEditAccess env s = false → applyOp env s op = ⟨s, [], false⟩) ∧
    (∀ o t, findWithIdx (fun x => x.user == o.user) s.owners = none →
      updateOwner env s o t = ⟨s, [], false⟩) ∧
    (∀ tid d t, findWithIdx (fun x => x.uuid == tid) s.trackers = none →
      updateTracker env s tid d t = ⟨s, [], false⟩) ∧
    (∀ tid t, findWithIdx (fun x => x.uuid == tid) s.trackers = none →
      removeTracker env s tid t = ⟨s, [], false⟩) ∧
    (∀ aid d t, findWithIdx (fun x => x.uuid == aid) s.auras = none →
      updateAura env s aid d t = ⟨s, [], false⟩) ∧
    (∀ aid t, findWithIdx (fun x => x.uuid == aid) s.auras = none →
      removeAura env s aid t = ⟨s, [], false⟩) ∧
    (∀ u t, hasEditAccess env s = true → (∀ o ∈ s.owners, o.user ≠ u) →
      t ≠ SyncTo.ui → selectedInMap env s = true →
      (removeOwner env s u t).state = s ∧ (removeOwner env s u t).calls ≠ []) := by
  refine ⟨fun op hg => ?_, fun o t hf => ?_, fun tid d t hf => ?_, fun tid t hf => ?_,
    fun aid d t hf => ?_, fun aid t hf => ?_, fun u t hg hall ht hsel => ?_⟩
  · cases op <;>
      simp only [applyOp, setDefaultAccess, setDefaultEditAccess, setDefaultMovementAccess,
        setDefaultVisionAccess, addOwner, updateOwner, removeOwner, pushTracker,
        updateTracker, removeTracker, pushAura, updateAura, removeAura,
        forwardPushTracker, forwardPushAura] <;>
      (repeat' split) <;> simp_all
  · simp only [updateOwner]
    (repeat' split) <;> simp_all
  · simp only [updateTracker]
    (repeat' split) <;> simp_all
  · simp only [removeTracker]
    (repeat' split) <;> simp_all
  · simp only [updateAura]
    (repeat' split) <;> simp_all
  · simp only [removeAura]
    (repeat' split) <;> simp_all
  · obtain ⟨v, hv⟩ := hasEditAccess_uuid_isSome hg
    have hmap : env.uuidMap.contains v = true := by
      simpa [selectedInMap, hv] using hsel
    have hfilter : s.owners.filter (fun o => !decide (o.user = u)) = s.owners :=
      List.filter_eq_self.mpr (fun o ho => by simp [hall o ho])
    have hres : removeOwner env s u t = ⟨s, [GatewayCall.removeOwner v u t], false⟩ := by
      obtain ⟨su, spar, slast, sacc, sown, str, sfrt, sau, sfra, sfr⟩ := s
      simp only at hv hfilter hg hmap
      subst hv
      simp only [removeOwner, hg, not_true_eq_false, if_false]
      rw [if_pos ht, if_pos hmap]
      simp_all
    rw [hres]
    exact ⟨rfl, by simp⟩

/-- Witness for C7: on the initial state (nothing selected) a server-tagged
`setDefaultEditAccess` does nothing; on a selected shape an update to a
missing tracker does nothing; and `removeOwner` of an absent user leaves
state unchanged yet still calls the gateway. -/
theorem silent_noop_guards_witness :
    applyOp envDM initState (Op.setDefaultEditAccess true SyncTo.server) =
      ⟨initState, [], false⟩ ∧
    updateTracker envDM sA "missing" ⟨none, none, none, none, none⟩ SyncTo.server =
      ⟨sA, [], false⟩ ∧
    ((removeOwner envDM sA "ghost" SyncTo.server).state = sA ∧
      (removeOwner envDM sA "ghost" SyncTo.server).calls ≠ []) :=
  ⟨(silent_noop_guards envDM initState).1 (Op.setDefaultEditAccess true SyncTo.server)
      (by decide),
   (silent_noop_guards envDM sA).2.2.1 "missing" ⟨none, none, none, none, none⟩
      SyncTo.server (by decide),
   (silent_noop_guards envDM sA).2.2.2.2.2.2 "ghost" SyncTo.server (by decide)
      (by decide) (by decide) (by decide)⟩

/-- C7 as stated is false: `removeOwner` addressed at a user absent from the
owner list still makes a gateway call (there is no presence check). -/
theorem removeOwner_absent_forwards_cex :
    (∀ o ∈ sA.owners, o.user ≠ "ghost") ∧
    (applyOp envDM sA (Op.removeOwner "ghost" SyncTo.server)).calls =
      [GatewayCall.removeOwner "A" "ghost" SyncTo.server] := by
  constructor
  · decide
  · rfl

/-! ## C6: promotion of the placeholder -/

/-- C6 (amended): when `updateTracker`/`updateAura` is invoked with a non-UI
tag, the gate passes, the located entity is temporary and its owning shape id
is present in the UUID map, the update promotes the placeholder: `temporary`
is cleared, the gateway receives exactly one brand-new push (no update call),
and one fresh placeholder is appended at the end of the list. -/
theorem placeholder_promotion (env : Env) (s : State) (tid aid : String)
    (dt : TrackerDelta) (da : AuraDelta) (t : SyncTo) (hne : t ≠ SyncTo.ui)
    (hgate : hasEditAccess env s = true) :
    (∀ i t0, findWithIdx (fun x => x.uuid == tid) s.trackers = some (i, t0) →
      t0.temporary = true → env.uuidMap.contains t0.shape = true →
      updateTracker env s tid dt t =
        ⟨{ s with
            trackers :=
              s.trackers.set i { applyTrackerDelta t0 dt with temporary := false } ++
                [createEmptyTracker (s.uuid.getD "") s.fresh]
            fresh := s.fresh + 1 },
          [GatewayCall.pushTracker t0.shape
            (UiTracker.toTracker { applyTrackerDelta t0 dt with temporary := false })
            SyncTo.server],
          false⟩) ∧
    (∀ i a0, findWithIdx (fun x => x.uuid == aid) s.auras = some (i, a0) →
      a0.temporary = true → env.uuidMap.contains a0.shape = true →
      updateAura env s aid da t =
        ⟨{ s with
            auras :=
              s.auras.set i { applyAuraDelta a0 da with temporary := false } ++
                [createEmptyAura (s.uuid.getD "") s.fresh]
            fresh := s.fresh + 1 },
          [GatewayCall.pushAura a0.shape
            (UiAura.toAura { applyAuraDelta a0 da with temporary := false })
            SyncTo.server],
          false⟩) := by
  constructor
  · intro i t0 hf htemp hmap
    simp only [updateTracker, hgate, not_true_eq_false, if_false, hf,
      applyTrackerDelta_shape, applyTrackerDelta_temporary, hmap, htemp, hne,
      not_false_eq_true, if_true, List.set_set]
    rw [if_pos hne]
  · intro i a0 hf htemp hmap
    simp only [updateAura, hgate, not_true_eq_false, if_false, hf,
      applyAuraDelta_shape, applyAuraDelta_temporary, hmap, htemp, hne,
      not_false_eq_true, if_true, List.set_set]
    rw [if_pos hne]

/-- Witness for C6: editing the placeholder row of the selected shape `A`
with a server tag promotes it and appends a fresh placeholder. -/
theorem placeholder_promotion_witness :
    updateTracker envDM sA "empty-tracker-0" ⟨none, some "HP", some 3, none, none⟩
        SyncTo.server =
      ⟨{ sA with
          trackers :=
            sA.trackers.set 0
                { applyTrackerDelta (createEmptyTracker "A" 0)
                    ⟨none, some "HP", some 3, none, none⟩ with temporary := false } ++
              [createEmptyTracker "A" 2]
          fresh := 3 },
        [GatewayCall.pushTracker "A"
          (UiTracker.toTracker
            { applyTrackerDelta (createEmptyTracker "A" 0)
                ⟨none, some "HP", some 3, none, none⟩ with temporary := false })
          SyncTo.server],
        false⟩ :=
  (placeholder_promotion envDM sA "empty-tracker-0" "x" ⟨none, some "HP", some 3, none, none⟩
      ⟨none, none, none, none, none⟩ SyncTo.server (by decide) (by decide)).1
    0 (createEmptyTracker "A" 0) (by decide) (by decide) (by decide)

/-- C6 as stated is false: all of its stated hypotheses hold (non-echo tag,
gate passes, located entity temporary) yet with the owning shape missing from
the UUID map nothing is promoted - the flag stays set, no gateway push
happens and no placeholder is appended. -/
theorem promotion_requires_uuidMap_cex :
    hasEditAccess envNoMap sA = true ∧
    findWithIdx (fun x => x.uuid == "empty-tracker-0") sA.trackers =
      some (0, createEmptyTracker "A" 0) ∧
    (createEmptyTracker "A" 0).temporary = true ∧
    (updateTracker envNoMap sA "empty-tracker-0" ⟨none, some "HP", none, none, none⟩
        SyncTo.server).calls = [] ∧
    ((updateTracker envNoMap sA "empty-tracker-0" ⟨none, some "HP", none, none, none⟩
        SyncTo.server).state.trackers.map (fun x => x.temporary)) = [true] := by
  refine ⟨by decide, by decide, by decide, rfl, rfl⟩

end ActiveShape

namespace ActiveShape

/-! ## C3: owner uniqueness -/

/-- The user ids currently in the owner list. -/
def ownerUsers (s : State) : List String := s.owners.map (fun o => o.user)

/-- The operations C3 ranges over, with the freshness side condition the
amendment adds: an `addOwner` may only add a user that is not yet present
(the source performs no duplicate check). -/
def ownerOpOk (s : State) : Op → Bool
  | .addOwner o _ => !(ownerUsers s).contains o.user
  | .updateOwner _ _ => true
  | _ => false

/-- A sequence of owner operations, each satisfying `ownerOpOk` at the state
it is applied to. -/
inductive OwnerSeqOk : State → List (Env × Op) → Prop where
  | nil (s : State) : OwnerSeqOk s []
  | cons {s : State} {env : Env} {op : Op} {rest : List (Env × Op)} :
      ownerOpOk s op = true → OwnerSeqOk (applyOp env s op).state rest →
      OwnerSeqOk s ((env, op) :: rest)

theorem ownerUsers_set {l : List ShapeOwner} {i : Nat} {x o : ShapeOwner}
    (hf : findWithIdx (fun y => y.user == o.user) l = some (i, x)) :
    (l.set i o).map (fun y => y.user) = l.map (fun y => y.user) := by
  obtain ⟨hp, l1, l2, hdec, hlen, _⟩ := findWithIdx_some hf
  subst hdec
  subst hlen
  rw [List.set_append, if_neg (lt_irrefl _)]
  simp only [Nat.sub_self, List.set_cons_zero, List.map_append, List.map_cons]
  have hxo : x.user = o.user := by simpa using hp
  rw [hxo]

theorem ownerStep_nodup {env : Env} {s : State} {op : Op} (hok : ownerOpOk s op = true)
    (hnd : (ownerUsers s).Nodup) : (ownerUsers (applyOp env s op).state).Nodup := by
  cases op with
  | addOwner o t =>
      have hmem : o.user ∉ s.owners.map (fun y => y.user) := by
        simp only [ownerOpOk, Bool.not_eq_eq_eq_not, Bool.not_true] at hok
        simpa [ownerUsers] using hok
      simp only [applyOp, addOwner]
      (repeat' split) <;>
        simp_all [ownerUsers, List.nodup_append]
  | updateOwner o t =>
      simp only [applyOp, updateOwner]
      cases hu : s.uuid with
      | none => exact hnd
      | some u =>
          dsimp only
          by_cases hg : hasEditAccess env s = true
          · simp only [hg, not_true_eq_false, if_false]
            cases hf : findWithIdx (fun y => y.user == o.user) s.owners with
            | none => exact hnd
            | some r =>
                obtain ⟨i, x⟩ := r
                dsimp only
                have hset := ownerUsers_set (o := o) hf
                (repeat' split) <;> simpa only [ownerUsers, hset] using hnd
          · rw [if_pos hg]
            exact hnd
  | setDefaultAccess a t => simp [ownerOpOk] at hok
  | setDefaultEditAccess b t => simp [ownerOpOk] at hok
  | setDefaultMovementAccess b t => simp [ownerOpOk] at hok
  | setDefaultVisionAccess b t => simp [ownerOpOk] at hok
  | removeOwner u t => simp [ownerOpOk] at hok
  | pushTracker tr sh t => simp [ownerOpOk] at hok
  | updateTracker tid d t => simp [ownerOpOk] at hok
  | removeTracker tid t => simp [ownerOpOk] at hok
  | pushAura a sh t => simp [ownerOpOk] at hok
  | updateAura aid d t => simp [ownerOpOk] at hok
  | removeAura aid t => simp [ownerOpOk] at hok

/-- C3 (amended): `updateOwner` always preserves owner-uniqueness, and
`addOwner` preserves it provided the added user id is not already present
(the source pushes unconditionally, with no duplicate check); hence any
sequence of `addOwner`/`updateOwner` calls whose additions are fresh at the
time of the call keeps the user ids of the owner list free of duplicates. -/
theorem owners_nodup_of_fresh_adds (l : List (Env × Op)) (s : State)
    (hnd : (ownerUsers s).Nodup) (hseq : OwnerSeqOk s l) :
    (ownerUsers (applyOpsE s l)).Nodup := by
  induction l generalizing s with
  | nil => simpa [applyOpsE] using hnd
  | cons p rest ih =>
      cases hseq with
      | cons hok hrest => exact ih _ (ownerStep_nodup hok hnd) hrest

/-- Witness for C3 (amended) on a concrete fresh add / update / fresh add
sequence. -/
theorem owners_nodup_of_fresh_adds_witness :
    (ownerUsers (applyOpsE sA
      [(envDM, Op.addOwner ⟨"bob", ⟨true, true, true⟩⟩ SyncTo.ui),
       (envDM, Op.updateOwner ⟨"bob", ⟨false, false, false⟩⟩ SyncTo.ui),
       (envDM, Op.addOwner ⟨"alice", ⟨true, true, true⟩⟩ SyncTo.ui)])).Nodup :=
  owners_nodup_of_fresh_adds _ sA (by decide)
    (OwnerSeqOk.cons (by decide)
      (OwnerSeqOk.cons (by decide)
        (OwnerSeqOk.cons (by decide) (OwnerSeqOk.nil _))))

/-- C3 as stated is false: two `addOwner` calls with the same user id produce
two owner entries sharing that user id (the code pushes without a duplicate
check). -/
theorem addOwner_duplicate_cex :
    ownerUsers (applyOpsE sA
      [(envDM, Op.addOwner ⟨"bob", ⟨true, true, true⟩⟩ SyncTo.ui),
       (envDM, Op.addOwner ⟨"bob", ⟨false, false, false⟩⟩ SyncTo.ui)]) = ["bob", "bob"] ∧
    ¬ (ownerUsers (applyOpsE sA
      [(envDM, Op.addOwner ⟨"bob", ⟨true, true, true⟩⟩ SyncTo.ui),
       (envDM, Op.addOwner ⟨"bob", ⟨false, false, false⟩⟩ SyncTo.ui)])).Nodup := by
  constructor
  · rfl
  · decide

end ActiveShape

namespace ActiveShape

/-! ## Machinery for the list invariants (C4, C5) -/

/-- The six tracker/aura list mutations (C4's scope). -/
def isListOp : Op → Bool
  | .pushTracker _ _ _ => true
  | .updateTracker _ _ _ => true
  | .removeTracker _ _ => true
  | .pushAura _ _ _ => true
  | .updateAura _ _ _ => true
  | .removeAura _ _ => true
  | _ => false

/-- The four push/remove list mutations (C5's scope). -/
def isPushRemoveOp : Op → Bool
  | .pushTracker _ _ _ => true
  | .removeTracker _ _ => true
  | .pushAura _ _ _ => true
  | .removeAura _ _ => true
  | _ => false

/-- The hedge the counterexamples force: a remove operation must not target
the trailing placeholder, i.e. the entity located by uuid (if any) is not
temporary. -/
def keepsPlaceholder (s : State) : Op → Bool
  | .removeTracker tid _ =>
      match findWithIdx (fun x => x.uuid == tid) s.trackers with
      | some r => !r.2.temporary
      | none => true
  | .removeAura aid _ =>
      match findWithIdx (fun x => x.uuid == aid) s.auras with
      | some r => !r.2.temporary
      | none => true
  | _ => true

/-- Ops that write the tracker list or tracker cursor. -/
def touchesTrackers : Op → Bool
  | .pushTracker _ _ _ => true
  | .updateTracker _ _ _ => true
  | .removeTracker _ _ => true
  | _ => false

/-- Ops that write the aura list or aura cursor. -/
def touchesAuras : Op → Bool
  | .pushAura _ _ _ => true
  | .updateAura _ _ _ => true
  | .removeAura _ _ => true
  | _ => false

/-- Frame: operations outside the tracker engine leave the tracker list and
its cursor untouched. -/
theorem applyOp_trackers_frame (env : Env) (s : State) (op : Op)
    (h : touchesTrackers op = false) :
    (applyOp env s op).state.trackers = s.trackers ∧
    (applyOp env s op).state.firstRealTrackerIndex = s.firstRealTrackerIndex := by
  cases op <;> first
    | · simp only [applyOp, setDefaultAccess, setDefaultEditAccess, setDefaultMovementAccess,
          setDefaultVisionAccess, addOwner, updateOwner, removeOwner, pushAura, updateAura,
          removeAura, forwardPushAura]
        (repeat' split) <;> exact ⟨rfl, rfl⟩
    | simp [touchesTrackers] at h

/-- Frame: operations outside the aura engine leave the aura list and its
cursor untouched. -/
theorem applyOp_auras_frame (env : Env) (s : State) (op : Op)
    (h : touchesAuras op = false) :
    (applyOp env s op).state.auras = s.auras ∧
    (applyOp env s op).state.firstRealAuraIndex = s.firstRealAuraIndex := by
  cases op <;> first
    | · simp only [applyOp, setDefaultAccess, setDefaultEditAccess, setDefaultMovementAccess,
          setDefaultVisionAccess, addOwner, updateOwner, removeOwner, pushTracker,
          updateTracker, removeTracker, forwardPushTracker]
        (repeat' split) <;> exact ⟨rfl, rfl⟩
    | simp [touchesAuras] at h

/-- `findWithIdx` over an append scans the left part first. -/
theorem findWithIdx_append {α : Type} (p : α → Bool) (A B : List α) :
    findWithIdx p (A ++ B) =
      match findWithIdx p A with
      | some r => some r
      | none => (findWithIdx p B).map (fun r => (A.length + r.1, r.2)) := by
  induction A with
  | nil => simp [findWithIdx]
  | cons a as ih =>
      cases hpa : p a with
      | true => simp [findWithIdx, hpa]
      | false =>
          have hcons : findWithIdx p (a :: as) =
              (findWithIdx p as).map (fun r => (r.1 + 1, r.2)) := by
            simp [findWithIdx, hpa]
          have hcons2 : findWithIdx p (a :: (as ++ B)) =
              (findWithIdx p (as ++ B)).map (fun r => (r.1 + 1, r.2)) := by
            simp [findWithIdx, hpa]
          rw [List.cons_append, hcons2, ih, hcons]
          cases hA : findWithIdx p as with
          | some r => simp
          | none =>
              cases hB : findWithIdx p B with
              | some r => simp [List.length_cons, Prod.ext_iff]; omega
              | none => simp

/-- Elements produced by `toUiTrackers` carry the given shape id and are not
temporary. -/
theorem mem_toUiTrackers {x : UiTracker} {l : List Tracker} {sh : String}
    (h : x ∈ toUiTrackers l sh) : x.shape = sh ∧ x.temporary = false := by
  obtain ⟨t, _, rfl⟩ := List.mem_map.mp h
  exact ⟨rfl, rfl⟩

/-- Elements produced by `toUiAuras` carry the given shape id and are not
temporary. -/
theorem mem_toUiAuras {x : UiAura} {l : List Aura} {sh : String}
    (h : x ∈ toUiAuras l sh) : x.shape = sh ∧ x.temporary = false := by
  obtain ⟨a, _, rfl⟩ := List.mem_map.mp h
  exact ⟨rfl, rfl⟩

/-- The forwarding tail does not change the state it is given. -/
@[simp] theorem forwardPushTracker_state (env : Env) (s' : State) (tr : Tracker)
    (sh : String) (t : SyncTo) : (forwardPushTracker env s' tr sh t).state = s' := by
  unfold forwardPushTracker
  (repeat' split) <;> rfl

/-- The aura forwarding tail does not change the state it is given. -/
@[simp] theorem forwardPushAura_state (env : Env) (s' : State) (a : Aura)
    (sh : String) (t : SyncTo) : (forwardPushAura env s' a sh t).state = s' := by
  unfold forwardPushAura
  (repeat' split) <;> rfl

/-- Placeholder shape of the tracker list: non-temporary body, one trailing
temporary placeholder, and the cursor inside the body whenever a composite
parent is recorded. -/
def PhInvT (s : State) : Prop :=
  ∃ body ph, s.trackers = body ++ [ph] ∧ (∀ x ∈ body, x.temporary = false) ∧
    ph.temporary = true ∧
    ((∃ p, s.parentUuid = JsNullable.val p) → s.firstRealTrackerIndex ≤ body.length)

/-- Placeholder shape of the aura list. -/
def PhInvA (s : State) : Prop :=
  ∃ body ph, s.auras = body ++ [ph] ∧ (∀ x ∈ body, x.temporary = false) ∧
    ph.temporary = true ∧
    ((∃ p, s.parentUuid = JsNullable.val p) → s.firstRealAuraIndex ≤ body.length)

theorem PhInvT_of_eq {s s' : State} (ht : s'.trackers = s.trackers)
    (hc : s'.firstRealTrackerIndex = s.firstRealTrackerIndex)
    (hpar : s'.parentUuid = s.parentUuid) (h : PhInvT s) : PhInvT s' := by
  obtain ⟨body, ph, h1, h2, h3, h4⟩ := h
  refine ⟨body, ph, ?_, h2, h3, ?_⟩
  · rw [ht, h1]
  · intro hex
    rw [hc]
    exact h4 (by rwa [← hpar])

theorem PhInvA_of_eq {s s' : State} (ht : s'.auras = s.auras)
    (hc : s'.firstRealAuraIndex = s.firstRealAuraIndex)
    (hpar : s'.parentUuid = s.parentUuid) (h : PhInvA s) : PhInvA s' := by
  obtain ⟨body, ph, h1, h2, h3, h4⟩ := h
  refine ⟨body, ph, ?_, h2, h3, ?_⟩
  · rw [ht, h1]
  · intro hex
    rw [hc]
    exact h4 (by rwa [← hpar])

end ActiveShape

namespace ActiveShape

theorem phInvT_pushTracker (env : Env) (s : State) (tr : Tracker) (sh : String)
    (t : SyncTo) (hp : PhInvT s) : PhInvT (pushTracker env s tr sh t).state := by
  obtain ⟨body, ph, hdec, hbody, hph, hcur⟩ := hp
  simp only [pushTracker]
  by_cases hg : hasEditAccess env s = true
  case neg => rw [if_pos hg]; exact ⟨body, ph, hdec, hbody, hph, hcur⟩
  case pos =>
    simp only [hg, not_true_eq_false, if_false]
    by_cases h1 : s.uuid = some sh
    · rw [if_pos h1, forwardPushTracker_state]
      refine ⟨body ++ [toUiTracker tr sh], ph, ?_, ?_, hph, ?_⟩
      · show spliceInsert s.trackers (s.trackers.length - 1) (toUiTracker tr sh) = _
        rw [hdec]
        simp only [spliceInsert, List.length_append, List.length_singleton,
          Nat.add_sub_cancel, List.take_left, List.drop_left, List.append_assoc,
          List.singleton_append]
      · intro x hx
        rcases List.mem_append.mp hx with hx | hx
        · exact hbody x hx
        · simp only [List.mem_singleton] at hx
          subst hx
          rfl
      · intro hex
        simp only [List.length_append, List.length_singleton]
        exact le_trans (hcur hex) (Nat.le_succ _)
    · rw [if_neg h1]
      by_cases h2 : s.parentUuid = JsNullable.val sh
      · rw [if_pos h2, forwardPushTracker_state]
        have hc : s.firstRealTrackerIndex ≤ body.length := hcur ⟨sh, h2⟩
        refine ⟨body.take s.firstRealTrackerIndex ++
            toUiTracker tr sh :: body.drop s.firstRealTrackerIndex, ph, ?_, ?_, hph, ?_⟩
        · show spliceInsert s.trackers s.firstRealTrackerIndex (toUiTracker tr sh) = _
          rw [hdec]
          simp only [spliceInsert]
          rw [List.take_append_of_le_length hc, List.drop_append_of_le_length hc]
          simp [List.append_assoc]
        · intro x hx
          rcases List.mem_append.mp hx with hx | hx
          · exact hbody x (List.take_subset _ _ hx)
          · rcases List.mem_cons.mp hx with hx | hx
            · subst hx; rfl
            · exact hbody x (List.drop_subset _ _ hx)
        · intro hex
          simp only [List.length_append, List.length_cons, List.length_take, List.length_drop]
          have hmin : min s.firstRealTrackerIndex body.length = s.firstRealTrackerIndex :=
            Nat.min_eq_left hc
          omega
      · rw [if_neg h2]
        exact ⟨body, ph, hdec, hbody, hph, hcur⟩

theorem phInvT_updateTracker (env : Env) (s : State) (tid : String) (d : TrackerDelta)
    (t : SyncTo) (hp : PhInvT s) : PhInvT (updateTracker env s tid d t).state := by
  obtain ⟨body, ph, hdec, hbody, hph, hcur⟩ := hp
  simp only [updateTracker]
  by_cases hg : hasEditAccess env s = true
  case neg => rw [if_pos hg]; exact ⟨body, ph, hdec, hbody, hph, hcur⟩
  case pos =>
    simp only [hg, not_true_eq_false, if_false]
    cases hf : findWithIdx (fun x => x.uuid == tid) s.trackers with
    | none => exact ⟨body, ph, hdec, hbody, hph, hcur⟩
    | some r =>
      obtain ⟨i, t0⟩ := r
      dsimp only
      rw [hdec, findWithIdx_append] at hf
      cases hfb : findWithIdx (fun x => x.uuid == tid) body with
      | some rb =>
          rw [hfb] at hf
          simp only [Option.some.injEq] at hf
          rw [hf] at hfb
          obtain ⟨hpb, l1, l2, hbdec, hlen, _⟩ := findWithIdx_some hfb
          have hlt : i < body.length := by
            rw [hbdec, ← hlen]
            simp [List.length_append]
          have hmem : t0 ∈ body := by
            rw [hbdec]
            simp
          have htmp : t0.temporary = false := hbody t0 hmem
          have ht1 : (applyTrackerDelta t0 d).temporary = false := by
            rw [applyTrackerDelta_temporary]; exact htmp
          have hinv1 : PhInvT { s with trackers := s.trackers.set i (applyTrackerDelta t0 d) } := by
            refine ⟨body.set i (applyTrackerDelta t0 d), ph, ?_, ?_, hph, ?_⟩
            · show s.trackers.set i _ = _
              rw [hdec, List.set_append, if_pos hlt]
            · intro x hx
              rcases List.mem_or_eq_of_mem_set hx with hx | hx
              · exact hbody x hx
              · subst hx; exact ht1
            · intro hex
              rw [List.length_set]
              exact hcur hex
          (repeat' split) <;> first
            | exact hinv1
            | simp_all
      | none =>
          rw [hfb] at hf
          cases hpph : (fun x : UiTracker => x.uuid == tid) ph with
          | false => rw [findWithIdx, if_neg (by simp_all), findWithIdx] at hf; simp at hf
          | true =>
              rw [findWithIdx, if_pos (by simp_all)] at hf
              simp only [Option.map_some', Option.some.injEq] at hf
              obtain ⟨hi, ht0⟩ := (Prod.mk.injEq .. ▸ hf : body.length + 0 = i ∧ ph = t0)
              subst ht0
              have hi' : i = body.length := by omega
              subst hi'
              have hset1 : s.trackers.set body.length (applyTrackerDelta ph d) =
                  body ++ [applyTrackerDelta ph d] := by
                rw [hdec, List.set_append, if_neg (lt_irrefl _), Nat.sub_self,
                  List.set_cons_zero]
              have ht1 : (applyTrackerDelta ph d).temporary = true := by
                rw [applyTrackerDelta_temporary]; exact hph
              have hinv1 : PhInvT { s with trackers := s.trackers.set body.length (applyTrackerDelta ph d) } := by
                refine ⟨body, applyTrackerDelta ph d, ?_, hbody, ht1, ?_⟩
                · exact hset1
                · intro hex; exact hcur hex
              (repeat' split) <;> first
                | exact hinv1
                | · -- promotion branch
                    refine ⟨body ++ [{ applyTrackerDelta ph d with temporary := false }],
                      createEmptyTracker (s.uuid.getD "") s.fresh, ?_, ?_, rfl, ?_⟩
                    · show (s.trackers.set body.length (applyTrackerDelta ph d)).set
                          body.length { applyTrackerDelta ph d with temporary := false } ++ _ = _
                      rw [List.set_set, hdec, List.set_append, if_neg (lt_irrefl _),
                        Nat.sub_self, List.set_cons_zero]
                    · intro x hx
                      rcases List.mem_append.mp hx with hx | hx
                      · exact hbody x hx
                      · simp only [List.mem_singleton] at hx
                        subst hx
                        rfl
                    · intro hex
                      simp only [List.length_append, List.length_singleton]
                      exact le_trans (hcur hex) (Nat.le_succ _)

theorem phInvT_removeTracker (env : Env) (s : State) (tid : String) (t : SyncTo)
    (hk : ∀ i x, findWithIdx (fun y => y.uuid == tid) s.trackers = some (i, x) →
      x.temporary = false)
    (hp : PhInvT s) : PhInvT (removeTracker env s tid t).state := by
  obtain ⟨body, ph, hdec, hbody, hph, hcur⟩ := hp
  simp only [removeTracker]
  by_cases hg : hasEditAccess env s = true
  case neg => rw [if_pos hg]; exact ⟨body, ph, hdec, hbody, hph, hcur⟩
  case pos =>
    simp only [hg, not_true_eq_false, if_false]
    cases hf : findWithIdx (fun x => x.uuid == tid) s.trackers with
    | none => exact ⟨body, ph, hdec, hbody, hph, hcur⟩
    | some r =>
      obtain ⟨i, t0⟩ := r
      dsimp only
      have htmp : t0.temporary = false := hk i t0 hf
      rw [hdec, findWithIdx_append] at hf
      cases hfb : findWithIdx (fun x => x.uuid == tid) body with
      | some rb =>
          rw [hfb] at hf
          simp only [Option.some.injEq] at hf
          rw [hf] at hfb
          obtain ⟨hpb, l1, l2, hbdec, hlen, _⟩ := findWithIdx_some hfb
          have hlt : i < body.length := by
            rw [hbdec, ← hlen]
            simp [List.length_append]
          have hlen2 : (body.eraseIdx i).length = body.length - 1 := by
            rw [List.length_eraseIdx, if_pos hlt]
          have base : ∀ c, ((∃ p, s.parentUuid = JsNullable.val p) → c ≤ body.length - 1) →
              PhInvT { s with trackers := s.trackers.eraseIdx i, firstRealTrackerIndex := c } := by
            intro c hc
            refine ⟨body.eraseIdx i, ph, ?_, ?_, hph, ?_⟩
            · show s.trackers.eraseIdx i = _
              rw [hdec, List.eraseIdx_append_of_lt_length hlt]
            · intro x hx
              exact hbody x ((List.eraseIdx_sublist body i).subset hx)
            · intro hex
              rw [hlen2]
              exact hc hex
          (repeat' split) <;>
            exact base _ (fun hex => by have hb := hcur hex; omega)
      | none =>
          rw [hfb] at hf
          cases hpph : (fun x : UiTracker => x.uuid == tid) ph with
          | false => rw [findWithIdx, if_neg (by simp_all), findWithIdx] at hf; simp at hf
          | true =>
              rw [findWithIdx, if_pos (by simp_all)] at hf
              simp only [Option.map_some', Option.some.injEq] at hf
              obtain ⟨hi, ht0⟩ := (Prod.mk.injEq .. ▸ hf : body.length + 0 = i ∧ ph = t0)
              subst ht0
              rw [hph] at htmp
              exact absurd htmp (by simp)

theorem phInvA_pushAura (env : Env) (s : State) (au : Aura) (sh : String)
    (t : SyncTo) (hp : PhInvA s) : PhInvA (pushAura env s au sh t).state := by
  obtain ⟨body, ph, hdec, hbody, hph, hcur⟩ := hp
  simp only [pushAura]
  by_cases hg : hasEditAccess env s = true
  case neg => rw [if_pos hg]; exact ⟨body, ph, hdec, hbody, hph, hcur⟩
  case pos =>
    simp only [hg, not_true_eq_false, if_false]
    by_cases h1 : s.uuid = some sh
    · rw [if_pos h1, forwardPushAura_state]
      refine ⟨body ++ [toUiAura au sh], ph, ?_, ?_, hph, ?_⟩
      · show spliceInsert s.auras (s.auras.length - 1) (toUiAura au sh) = _
        rw [hdec]
        simp only [spliceInsert, List.length_append, List.length_singleton,
          Nat.add_sub_cancel, List.take_left, List.drop_left, List.append_assoc,
          List.singleton_append]
      · intro x hx
        rcases List.mem_append.mp hx with hx | hx
        · exact hbody x hx
        · simp only [List.mem_singleton] at hx
          subst hx
          rfl
      · intro hex
        simp only [List.length_append, List.length_singleton]
        exact le_trans (hcur hex) (Nat.le_succ _)
    · rw [if_neg h1]
      by_cases h2 : s.parentUuid = JsNullable.val sh
      · rw [if_pos h2, forwardPushAura_state]
        have hc : s.firstRealAuraIndex ≤ body.length := hcur ⟨sh, h2⟩
        refine ⟨body.take s.firstRealAuraIndex ++
            toUiAura au sh :: body.drop s.firstRealAuraIndex, ph, ?_, ?_, hph, ?_⟩
        · show spliceInsert s.auras s.firstRealAuraIndex (toUiAura au sh) = _
          rw [hdec]
          simp only [spliceInsert]
          rw [List.take_append_of_le_length hc, List.drop_append_of_le_length hc]
          simp [List.append_assoc]
        · intro x hx
          rcases List.mem_append.mp hx with hx | hx
          · exact hbody x (List.take_subset _ _ hx)
          · rcases List.mem_cons.mp hx with hx | hx
            · subst hx; rfl
            · exact hbody x (List.drop_subset _ _ hx)
        · intro hex
          simp only [List.length_append, List.length_cons, List.length_take, List.length_drop]
          have hmin : min s.firstRealAuraIndex body.length = s.firstRealAuraIndex :=
            Nat.min_eq_left hc
          omega
      · rw [if_neg h2]
        exact ⟨body, ph, hdec, hbody, hph, hcur⟩

theorem phInvA_updateAura (env : Env) (s : State) (aid : String) (d : AuraDelta)
    (t : SyncTo) (hp : PhInvA s) : PhInvA (updateAura env s aid d t).state := by
  obtain ⟨body, ph, hdec, hbody, hph, hcur⟩ := hp
  simp only [updateAura]
  by_cases hg : hasEditAccess env s = true
  case neg => rw [if_pos hg]; exact ⟨body, ph, hdec, hbody, hph, hcur⟩
  case pos =>
    simp only [hg, not_true_eq_false, if_false]
    cases hf : findWithIdx (fun x => x.uuid == aid) s.auras with
    | none => exact ⟨body, ph, hdec, hbody, hph, hcur⟩
    | some r =>
      obtain ⟨i, t0⟩ := r
      dsimp only
      rw [hdec, findWithIdx_append] at hf
      cases hfb : findWithIdx (fun x => x.uuid == aid) body with
      | some rb =>
          rw [hfb] at hf
          simp only [Option.some.injEq] at hf
          rw [hf] at hfb
          obtain ⟨hpb, l1, l2, hbdec, hlen, _⟩ := findWithIdx_some hfb
          have hlt : i < body.length := by
            rw [hbdec, ← hlen]
            simp [List.length_append]
          have hmem : t0 ∈ body := by
            rw [hbdec]
            simp
          have htmp : t0.temporary = false := hbody t0 hmem
          have ht1 : (applyAuraDelta t0 d).temporary = false := by
            rw [applyAuraDelta_temporary]; exact htmp
          have hinv1 : PhInvA { s with auras := s.auras.set i (applyAuraDelta t0 d) } := by
            refine ⟨body.set i (applyAuraDelta t0 d), ph, ?_, ?_, hph, ?_⟩
            · show s.auras.set i _ = _
              rw [hdec, List.set_append, if_pos hlt]
            · intro x hx
              rcases List.mem_or_eq_of_mem_set hx with hx | hx
              · exact hbody x hx
              · subst hx; exact ht1
            · intro hex
              rw [List.length_set]
              exact hcur hex
          (repeat' split) <;> first
            | exact hinv1
            | simp_all
      | none =>
          rw [hfb] at hf
          cases hpph : (fun x : UiAura => x.uuid == aid) ph with
          | false => rw [findWithIdx, if_neg (by simp_all), findWithIdx] at hf; simp at hf
          | true =>
              rw [findWithIdx, if_pos (by simp_all)] at hf
              simp only [Option.map_some', Option.some.injEq] at hf
              obtain ⟨hi, ht0⟩ := (Prod.mk.injEq .. ▸ hf : body.length + 0 = i ∧ ph = t0)
              subst ht0
              have hi' : i = body.length := by omega
              subst hi'
              have hset1 : s.auras.set body.length (applyAuraDelta ph d) =
                  body ++ [applyAuraDelta ph d] := by
                rw [hdec, List.set_append, if_neg (lt_irrefl _), Nat.sub_self,
                  List.set_cons_zero]
              have ht1 : (applyAuraDelta ph d).temporary = true := by
                rw [applyAuraDelta_temporary]; exact hph
              have hinv1 : PhInvA { s with auras := s.auras.set body.length (applyAuraDelta ph d) } := by
                refine ⟨body, applyAuraDelta ph d, ?_, hbody, ht1, ?_⟩
                · exact hset1
                · intro hex; exact hcur hex
              (repeat' split) <;> first
                | exact hinv1
                | · -- promotion branch
                    refine ⟨body ++ [{ applyAuraDelta ph d with temporary := false }],
                      createEmptyAura (s.uuid.getD "") s.fresh, ?_, ?_, rfl, ?_⟩
                    · show (s.auras.set body.length (applyAuraDelta ph d)).set
                          body.length { applyAuraDelta ph d with temporary := false } ++ _ = _
                      rw [List.set_set, hdec, List.set_append, if_neg (lt_irrefl _),
                        Nat.sub_self, List.set_cons_zero]
                    · intro x hx
                      rcases List.mem_append.mp hx with hx | hx
                      · exact hbody x hx
                      · simp only [List.mem_singleton] at hx
                        subst hx
                        rfl
                    · intro hex
                      simp only [List.length_append, List.length_singleton]
                      exact le_trans (hcur hex) (Nat.le_succ _)

theorem phInvA_removeAura (env : Env) (s : State) (aid : String) (t : SyncTo)
    (hk : ∀ i x, findWithIdx (fun y => y.uuid == aid) s.auras = some (i, x) →
      x.temporary = false)
    (hp : PhInvA s) : PhInvA (removeAura env s aid t).state := by
  obtain ⟨body, ph, hdec, hbody, hph, hcur⟩ := hp
  simp only [removeAura]
  by_cases hg : hasEditAccess env s = true
  case neg => rw [if_pos hg]; exact ⟨body, ph, hdec, hbody, hph, hcur⟩
  case pos =>
    simp only [hg, not_true_eq_false, if_false]
    cases hf : findWithIdx (fun x => x.uuid == aid) s.auras with
    | none => exact ⟨body, ph, hdec, hbody, hph, hcur⟩
    | some r =>
      obtain ⟨i, t0⟩ := r
      dsimp only
      have htmp : t0.temporary = false := hk i t0 hf
      rw [hdec, findWithIdx_append] at hf
      cases hfb : findWithIdx (fun x => x.uuid == aid) body with
      | some rb =>
          rw [hfb] at hf
          simp only [Option.some.injEq] at hf
          rw [hf] at hfb
          obtain ⟨hpb, l1, l2, hbdec, hlen, _⟩ := findWithIdx_some hfb
          have hlt : i < body.length := by
            rw [hbdec, ← hlen]
            simp [List.length_append]
          have hlen2 : (body.eraseIdx i).length = body.length - 1 := by
            rw [List.length_eraseIdx, if_pos hlt]
          have base : ∀ c, ((∃ p, s.parentUuid = JsNullable.val p) → c ≤ body.length - 1) →
              PhInvA { s with auras := s.auras.eraseIdx i, firstRealAuraIndex := c } := by
            intro c hc
            refine ⟨body.eraseIdx i, ph, ?_, ?_, hph, ?_⟩
            · show s.auras.eraseIdx i = _
              rw [hdec, List.eraseIdx_append_of_lt_length hlt]
            · intro x hx
              exact hbody x ((List.eraseIdx_sublist body i).subset hx)
            · intro hex
              rw [hlen2]
              exact hc hex
          (repeat' split) <;>
            exact base _ (fun hex => by have hb := hcur hex; omega)
      | none =>
          rw [hfb] at hf
          cases hpph : (fun x : UiAura => x.uuid == aid) ph with
          | false => rw [findWithIdx, if_neg (by simp_all), findWithIdx] at hf; simp at hf
          | true =>
              rw [findWithIdx, if_pos (by simp_all)] at hf
              simp only [Option.map_some', Option.some.injEq] at hf
              obtain ⟨hi, ht0⟩ := (Prod.mk.injEq .. ▸ hf : body.length + 0 = i ∧ ph = t0)
              subst ht0
              rw [hph] at htmp
              exact absurd htmp (by simp)


end ActiveShape

namespace ActiveShape

/-- Preservation: every engine operation that does not remove the placeholder
keeps both placeholder invariants. -/
theorem phInv_step (env : Env) (s : State) (op : Op)
    (hk : keepsPlaceholder s op = true) (ht : PhInvT s) (ha : PhInvA s) :
    PhInvT (applyOp env s op).state ∧ PhInvA (applyOp env s op).state := by
  constructor
  · cases op with
    | pushTracker tr sh t => exact phInvT_pushTracker env s tr sh t ht
    | updateTracker tid d t => exact phInvT_updateTracker env s tid d t ht
    | removeTracker tid t =>
        refine phInvT_removeTracker env s tid t ?_ ht
        intro i x hf
        simp only [keepsPlaceholder, hf] at hk
        simpa using hk
    | setDefaultAccess a t =>
        exact PhInvT_of_eq (applyOp_trackers_frame env s (Op.setDefaultAccess a t) rfl).1
          (applyOp_trackers_frame env s (Op.setDefaultAccess a t) rfl).2
          (applyOp_parentUuid env s (Op.setDefaultAccess a t)) ht
    | setDefaultEditAccess b t =>
        exact PhInvT_of_eq (applyOp_trackers_frame env s (Op.setDefaultEditAccess b t) rfl).1
          (applyOp_trackers_frame env s (Op.setDefaultEditAccess b t) rfl).2
          (applyOp_parentUuid env s (Op.setDefaultEditAccess b t)) ht
    | setDefaultMovementAccess b t =>
        exact PhInvT_of_eq (applyOp_trackers_frame env s (Op.setDefaultMovementAccess b t) rfl).1
          (applyOp_trackers_frame env s (Op.setDefaultMovementAccess b t) rfl).2
          (applyOp_parentUuid env s (Op.setDefaultMovementAccess b t)) ht
    | setDefaultVisionAccess b t =>
        exact PhInvT_of_eq (applyOp_trackers_frame env s (Op.setDefaultVisionAccess b t) rfl).1
          (applyOp_trackers_frame env s (Op.setDefaultVisionAccess b t) rfl).2
          (applyOp_parentUuid env s (Op.setDefaultVisionAccess b t)) ht
    | addOwner o t =>
        exact PhInvT_of_eq (applyOp_trackers_frame env s (Op.addOwner o t) rfl).1
          (applyOp_trackers_frame env s (Op.addOwner o t) rfl).2
          (applyOp_parentUuid env s (Op.addOwner o t)) ht
    | updateOwner o t =>
        exact PhInvT_of_eq (applyOp_trackers_frame env s (Op.updateOwner o t) rfl).1
          (applyOp_trackers_frame env s (Op.updateOwner o t) rfl).2
          (applyOp_parentUuid env s (Op.updateOwner o t)) ht
    | removeOwner u t =>
        exact PhInvT_of_eq (applyOp_trackers_frame env s (Op.removeOwner u t) rfl).1
          (applyOp_trackers_frame env s (Op.removeOwner u t) rfl).2
          (applyOp_parentUuid env s (Op.removeOwner u t)) ht
    | pushAura a sh t =>
        exact PhInvT_of_eq (applyOp_trackers_frame env s (Op.pushAura a sh t) rfl).1
          (applyOp_trackers_frame env s (Op.pushAura a sh t) rfl).2
          (applyOp_parentUuid env s (Op.pushAura a sh t)) ht
    | updateAura aid d t =>
        exact PhInvT_of_eq (applyOp_trackers_frame env s (Op.updateAura aid d t) rfl).1
          (applyOp_trackers_frame env s (Op.updateAura aid d t) rfl).2
          (applyOp_parentUuid env s (Op.updateAura aid d t)) ht
    | removeAura aid t =>
        exact PhInvT_of_eq (applyOp_trackers_frame env s (Op.removeAura aid t) rfl).1
          (applyOp_trackers_frame env s (Op.removeAura aid t) rfl).2
          (applyOp_parentUuid env s (Op.removeAura aid t)) ht
  · cases op with
    | pushAura au sh t => exact phInvA_pushAura env s au sh t ha
    | updateAura aid d t => exact phInvA_updateAura env s aid d t ha
    | removeAura aid t =>
        refine phInvA_removeAura env s aid t ?_ ha
        intro i x hf
        simp only [keepsPlaceholder, hf] at hk
        simpa using hk
    | setDefaultAccess a t =>
        exact PhInvA_of_eq (applyOp_auras_frame env s (Op.setDefaultAccess a t) rfl).1
          (applyOp_auras_frame env s (Op.setDefaultAccess a t) rfl).2
          (applyOp_parentUuid env s (Op.setDefaultAccess a t)) ha
    | setDefaultEditAccess b t =>
        exact PhInvA_of_eq (applyOp_auras_frame env s (Op.setDefaultEditAccess b t) rfl).1
          (applyOp_auras_frame env s (Op.setDefaultEditAccess b t) rfl).2
          (applyOp_parentUuid env s (Op.setDefaultEditAccess b t)) ha
    | setDefaultMovementAccess b t =>
        exact PhInvA_of_eq (applyOp_auras_frame env s (Op.setDefaultMovementAccess b t) rfl).1
          (applyOp_auras_frame env s (Op.setDefaultMovementAccess b t) rfl).2
          (applyOp_parentUuid env s (Op.setDefaultMovementAccess b t)) ha
    | setDefaultVisionAccess b t =>
        exact PhInvA_of_eq (applyOp_auras_frame env s (Op.setDefaultVisionAccess b t) rfl).1
          (applyOp_auras_frame env s (Op.setDefaultVisionAccess b t) rfl).2
          (applyOp_parentUuid env s (Op.setDefaultVisionAccess b t)) ha
    | addOwner o t =>
        exact PhInvA_of_eq (applyOp_auras_frame env s (Op.addOwner o t) rfl).1
          (applyOp_auras_frame env s (Op.addOwner o t) rfl).2
          (applyOp_parentUuid env s (Op.addOwner o t)) ha
    | updateOwner o t =>
        exact PhInvA_of_eq (applyOp_auras_frame env s (Op.updateOwner o t) rfl).1
          (applyOp_auras_frame env s (Op.updateOwner o t) rfl).2
          (applyOp_parentUuid env s (Op.updateOwner o t)) ha
    | removeOwner u t =>
        exact PhInvA_of_eq (applyOp_auras_frame env s (Op.removeOwner u t) rfl).1
          (applyOp_auras_frame env s (Op.removeOwner u t) rfl).2
          (applyOp_parentUuid env s (Op.removeOwner u t)) ha
    | pushTracker tr sh t =>
        exact PhInvA_of_eq (applyOp_auras_frame env s (Op.pushTracker tr sh t) rfl).1
          (applyOp_auras_frame env s (Op.pushTracker tr sh t) rfl).2
          (applyOp_parentUuid env s (Op.pushTracker tr sh t)) ha
    | updateTracker tid d t =>
        exact PhInvA_of_eq (applyOp_auras_frame env s (Op.updateTracker tid d t) rfl).1
          (applyOp_auras_frame env s (Op.updateTracker tid d t) rfl).2
          (applyOp_parentUuid env s (Op.updateTracker tid d t)) ha
    | removeTracker tid t =>
        exact PhInvA_of_eq (applyOp_auras_frame env s (Op.removeTracker tid t) rfl).1
          (applyOp_auras_frame env s (Op.removeTracker tid t) rfl).2
          (applyOp_parentUuid env s (Op.removeTracker tid t)) ha

/-- A sequence of list operations none of which removes the placeholder. -/
inductive ListSeqOk : State → List (Env × Op) → Prop where
  | nil (s : State) : ListSeqOk s []
  | cons {s : State} {env : Env} {op : Op} {rest : List (Env × Op)} :
      isListOp op = true → keepsPlaceholder s op = true →
      ListSeqOk (applyOp env s op).state rest → ListSeqOk s ((env, op) :: rest)

theorem phInv_run {s : State} {l : List (Env × Op)} (hseq : ListSeqOk s l)
    (ht : PhInvT s) (ha : PhInvA s) :
    PhInvT (applyOpsE s l) ∧ PhInvA (applyOpsE s l) := by
  induction l generalizing s with
  | nil => exact ⟨ht, ha⟩
  | cons p rest ih =>
      cases hseq with
      | cons hop hk hrest =>
          obtain ⟨ht', ha'⟩ := phInv_step _ _ _ hk ht ha
          exact ih hrest ht' ha'

/-- `setActiveShape` establishes the tracker placeholder invariant from any
prior state. -/
theorem phInvT_select (env : Env) (s : State) (shape : ShapeSnapshot) :
    PhInvT (setActiveShape env s shape) := by
  simp only [setActiveShape]
  cases hp : getCompositeParent env shape.uuid with
  | none =>
      refine ⟨toUiTrackers shape.trackers shape.uuid,
        createEmptyTracker shape.uuid s.fresh, by simp, ?_, rfl, ?_⟩
      · intro x hx
        exact (mem_toUiTrackers hx).2
      · intro hex
        obtain ⟨p, hp'⟩ := hex
        simp at hp'
  | some p =>
      refine ⟨toUiTrackers p.trackers p.uuid ++ toUiTrackers shape.trackers shape.uuid,
        createEmptyTracker shape.uuid s.fresh, by simp, ?_, rfl, ?_⟩
      · intro x hx
        rcases List.mem_append.mp hx with h | h
        · exact (mem_toUiTrackers h).2
        · exact (mem_toUiTrackers h).2
      · intro _
        simp only [List.length_append, toUiTrackers, List.length_map]
        exact Nat.le_add_right _ _

/-- `setActiveShape` establishes the aura placeholder invariant from any prior
state. -/
theorem phInvA_select (env : Env) (s : State) (shape : ShapeSnapshot) :
    PhInvA (setActiveShape env s shape) := by
  simp only [setActiveShape]
  cases hp : getCompositeParent env shape.uuid with
  | none =>
      refine ⟨toUiAuras shape.auras shape.uuid,
        createEmptyAura shape.uuid (s.fresh + 1), by simp, ?_, rfl, ?_⟩
      · intro x hx
        exact (mem_toUiAuras hx).2
      · intro hex
        obtain ⟨p, hp'⟩ := hex
        simp at hp'
  | some p =>
      refine ⟨toUiAuras p.auras p.uuid ++ toUiAuras shape.auras shape.uuid,
        createEmptyAura shape.uuid (s.fresh + 1), by simp, ?_, rfl, ?_⟩
      · intro x hx
        rcases List.mem_append.mp hx with h | h
        · exact (mem_toUiAuras h).2
        · exact (mem_toUiAuras h).2
      · intro _
        simp only [List.length_append, toUiAuras, List.length_map]
        exact Nat.le_add_right _ _

theorem phInvT_count {s : State} (h : PhInvT s) :
    s.trackers.countP (fun x => x.temporary) = 1 ∧
    ∃ x, s.trackers.getLast? = some x ∧ x.temporary = true := by
  obtain ⟨body, ph, hdec, hbody, hph, _⟩ := h
  constructor
  · rw [hdec, List.countP_append]
    have h0 : body.countP (fun x => x.temporary) = 0 :=
      List.countP_eq_zero.mpr (fun a ha => by simp [hbody a ha])
    have h1 : List.countP (fun x => x.temporary) [ph] = 1 := by
      simp [List.countP_cons, hph]
    omega
  · exact ⟨ph, by rw [hdec]; exact List.getLast?_concat _, hph⟩

theorem phInvA_count {s : State} (h : PhInvA s) :
    s.auras.countP (fun x => x.temporary) = 1 ∧
    ∃ x, s.auras.getLast? = some x ∧ x.temporary = true := by
  obtain ⟨body, ph, hdec, hbody, hph, _⟩ := h
  constructor
  · rw [hdec, List.countP_append]
    have h0 : body.countP (fun x => x.temporary) = 0 :=
      List.countP_eq_zero.mpr (fun a ha => by simp [hbody a ha])
    have h1 : List.countP (fun x => x.temporary) [ph] = 1 := by
      simp [List.countP_cons, hph]
    omega
  · exact ⟨ph, by rw [hdec]; exact List.getLast?_concat _, hph⟩

/-- C4 (amended): after `select`, and after any sequence of tracker/aura
mutations none of which removes the trailing placeholder (a `removeTracker`/
`removeAura` whose located entity is temporary deletes the placeholder
without replacement), each of the tracker and aura lists contains exactly one
`temporary` entry, and it is the last element. -/
theorem placeholder_trailing_invariant (env0 : Env) (s0 : State) (shape : ShapeSnapshot)
    (l : List (Env × Op)) (hops : ListSeqOk (setActiveShape env0 s0 shape) l) :
    ((applyOpsE (setActiveShape env0 s0 shape) l).trackers.countP
        (fun x => x.temporary) = 1 ∧
      ∃ x, (applyOpsE (setActiveShape env0 s0 shape) l).trackers.getLast? = some x ∧
        x.temporary = true) ∧
    ((applyOpsE (setActiveShape env0 s0 shape) l).auras.countP
        (fun x => x.temporary) = 1 ∧
      ∃ x, (applyOpsE (setActiveShape env0 s0 shape) l).auras.getLast? = some x ∧
        x.temporary = true) := by
  obtain ⟨ht, ha⟩ := phInv_run hops (phInvT_select env0 s0 shape) (phInvA_select env0 s0 shape)
  exact ⟨phInvT_count ht, phInvA_count ha⟩

/-- Witness for C4 (amended): select `A`, push a tracker, edit the
placeholder (promoting it), then remove the pushed tracker. -/
theorem placeholder_trailing_invariant_witness :
    ((applyOpsE (setActiveShape envDM initState snapA)
        [(envDM, Op.pushTracker ⟨"T1", "hp", 1, 2, true⟩ "A" SyncTo.ui),
         (envDM, Op.updateTracker "empty-tracker-0" ⟨none, some "HP", some 3, none, none⟩
            SyncTo.server),
         (envDM, Op.removeTracker "T1" SyncTo.ui)]).trackers.countP
        (fun x => x.temporary) = 1 ∧
      ∃ x, (applyOpsE (setActiveShape envDM initState snapA)
        [(envDM, Op.pushTracker ⟨"T1", "hp", 1, 2, true⟩ "A" SyncTo.ui),
         (envDM, Op.updateTracker "empty-tracker-0" ⟨none, some "HP", some 3, none, none⟩
            SyncTo.server),
         (envDM, Op.removeTracker "T1" SyncTo.ui)]).trackers.getLast? = some x ∧
        x.temporary = true) ∧
    ((applyOpsE (setActiveShape envDM initState snapA)
        [(envDM, Op.pushTracker ⟨"T1", "hp", 1, 2, true⟩ "A" SyncTo.ui),
         (envDM, Op.updateTracker "empty-tracker-0" ⟨none, some "HP", some 3, none, none⟩
            SyncTo.server),
         (envDM, Op.removeTracker "T1" SyncTo.ui)]).auras.countP
        (fun x => x.temporary) = 1 ∧
      ∃ x, (applyOpsE (setActiveShape envDM initState snapA)
        [(envDM, Op.pushTracker ⟨"T1", "hp", 1, 2, true⟩ "A" SyncTo.ui),
         (envDM, Op.updateTracker "empty-tracker-0" ⟨none, some "HP", some 3, none, none⟩
            SyncTo.server),
         (envDM, Op.removeTracker "T1" SyncTo.ui)]).auras.getLast? = some x ∧
        x.temporary = true) :=
  placeholder_trailing_invariant envDM initState snapA _
    (ListSeqOk.cons (by decide) (by decide)
      (ListSeqOk.cons (by decide) (by decide)
        (ListSeqOk.cons (by decide) (by decide) (ListSeqOk.nil _))))

/-- C4 as stated is false: a `removeTracker` targeting the placeholder row of
a freshly selected shape leaves the tracker list with no temporary entry at
all (the list even becomes empty). -/
theorem remove_placeholder_cex :
    (applyOp envDM sA (Op.removeTracker "empty-tracker-0" SyncTo.ui)).state.trackers.countP
      (fun x => x.temporary) = 0 ∧
    (applyOp envDM sA (Op.removeTracker "empty-tracker-0" SyncTo.ui)).state.trackers = [] :=
  ⟨rfl, rfl⟩

end ActiveShape

namespace ActiveShape

/-! ## Machinery for cursor consistency (C5) -/

theorem spliceInsert_before_last {α : Type} (A : List α) (c a : α) :
    spliceInsert (A ++ [c]) ((A ++ [c]).length - 1) a = A ++ [a, c] := by
  simp only [spliceInsert, List.length_append, List.length_singleton, Nat.add_sub_cancel,
    List.take_left, List.drop_left]

theorem spliceInsert_at_left_length {α : Type} (A B : List α) (a : α) :
    spliceInsert (A ++ B) A.length a = A ++ a :: B := by
  simp only [spliceInsert, List.take_left, List.drop_left]

/-- Segmented shape of the tracker list: a parent segment (all entries owned
by the recorded composite parent) whose length is exactly the cursor, then an
own segment, then the placeholder; and the parent id differs from the
selection id. -/
def SegT (s : State) : Prop :=
  ∃ pre mid ph,
    s.trackers = pre ++ mid ++ [ph] ∧
    s.firstRealTrackerIndex = pre.length ∧
    (∀ x ∈ pre, JsNullable.val x.shape = s.parentUuid ∧ x.temporary = false) ∧
    (∀ x ∈ mid, some x.shape = s.uuid ∧ x.temporary = false) ∧
    some ph.shape = s.uuid ∧ ph.temporary = true ∧
    (∀ u, s.uuid = some u → s.parentUuid ≠ JsNullable.val u)

/-- Segmented shape of the aura list. -/
def SegA (s : State) : Prop :=
  ∃ pre mid ph,
    s.auras = pre ++ mid ++ [ph] ∧
    s.firstRealAuraIndex = pre.length ∧
    (∀ x ∈ pre, JsNullable.val x.shape = s.parentUuid ∧ x.temporary = false) ∧
    (∀ x ∈ mid, some x.shape = s.uuid ∧ x.temporary = false) ∧
    some ph.shape = s.uuid ∧ ph.temporary = true ∧
    (∀ u, s.uuid = some u → s.parentUuid ≠ JsNullable.val u)

theorem SegT_of_eq {s s' : State} (ht : s'.trackers = s.trackers)
    (hc : s'.firstRealTrackerIndex = s.firstRealTrackerIndex)
    (hpar : s'.parentUuid = s.parentUuid) (huu : s'.uuid = s.uuid)
    (h : SegT s) : SegT s' := by
  obtain ⟨pre, mid, ph, h1, h2, h3, h4, h5, h6, h7⟩ := h
  refine ⟨pre, mid, ph, by rw [ht, h1], by rw [hc, h2], ?_, ?_, by rw [huu]; exact h5, h6, ?_⟩
  · intro x hx
    rw [hpar]
    exact h3 x hx
  · intro x hx
    rw [huu]
    exact h4 x hx
  · intro u hu
    rw [hpar]
    exact h7 u (by rw [← huu]; exact hu)

theorem SegA_of_eq {s s' : State} (ht : s'.auras = s.auras)
    (hc : s'.firstRealAuraIndex = s.firstRealAuraIndex)
    (hpar : s'.parentUuid = s.parentUuid) (huu : s'.uuid = s.uuid)
    (h : SegA s) : SegA s' := by
  obtain ⟨pre, mid, ph, h1, h2, h3, h4, h5, h6, h7⟩ := h
  refine ⟨pre, mid, ph, by rw [ht, h1], by rw [hc, h2], ?_, ?_, by rw [huu]; exact h5, h6, ?_⟩
  · intro x hx
    rw [hpar]
    exact h3 x hx
  · intro x hx
    rw [huu]
    exact h4 x hx
  · intro u hu
    rw [hpar]
    exact h7 u (by rw [← huu]; exact hu)

theorem segT_pushTracker (env : Env) (s : State) (tr : Tracker) (sh : String)
    (t : SyncTo) (hp : SegT s) : SegT (pushTracker env s tr sh t).state := by
  obtain ⟨pre, mid, ph, hdec, hcur, hpre, hmid, hphs, hpht, hdist⟩ := hp
  simp only [pushTracker]
  by_cases hg : hasEditAccess env s = true
  case neg =>
    rw [if_pos hg]
    exact ⟨pre, mid, ph, hdec, hcur, hpre, hmid, hphs, hpht, hdist⟩
  case pos =>
    simp only [hg, not_true_eq_false, if_false]
    by_cases h1 : s.uuid = some sh
    · rw [if_pos h1, forwardPushTracker_state]
      refine ⟨pre, mid ++ [toUiTracker tr sh], ph, ?_, hcur, hpre, ?_, hphs, hpht, hdist⟩
      · show spliceInsert s.trackers (s.trackers.length - 1) (toUiTracker tr sh) = _
        rw [hdec, ← List.append_assoc, spliceInsert_before_last]
        simp
      · intro x hx
        rcases List.mem_append.mp hx with hx | hx
        · exact hmid x hx
        · simp only [List.mem_singleton] at hx
          subst hx
          exact ⟨h1.symm, rfl⟩
    · rw [if_neg h1]
      by_cases h2 : s.parentUuid = JsNullable.val sh
      · rw [if_pos h2, forwardPushTracker_state]
        refine ⟨pre ++ [toUiTracker tr sh], mid, ph, ?_, ?_, ?_, hmid, hphs, hpht, hdist⟩
        · show spliceInsert s.trackers s.firstRealTrackerIndex (toUiTracker tr sh) = _
          rw [hdec, hcur, List.append_assoc, spliceInsert_at_left_length]
          simp
        · show s.firstRealTrackerIndex + 1 = _
          rw [hcur]
          simp
        · intro x hx
          rcases List.mem_append.mp hx with hx | hx
          · exact hpre x hx
          · simp only [List.mem_singleton] at hx
            subst hx
            exact ⟨h2.symm, rfl⟩
      · rw [if_neg h2]
        exact ⟨pre, mid, ph, hdec, hcur, hpre, hmid, hphs, hpht, hdist⟩

theorem segT_removeTracker (env : Env) (s : State) (tid : String) (t : SyncTo)
    (hk : ∀ i x, findWithIdx (fun y => y.uuid == tid) s.trackers = some (i, x) →
      x.temporary = false)
    (hp : SegT s) : SegT (removeTracker env s tid t).state := by
  obtain ⟨pre, mid, ph, hdec, hcur, hpre, hmid, hphs, hpht, hdist⟩ := hp
  simp only [removeTracker]
  by_cases hg : hasEditAccess env s = true
  case neg =>
    rw [if_pos hg]
    exact ⟨pre, mid, ph, hdec, hcur, hpre, hmid, hphs, hpht, hdist⟩
  case pos =>
    simp only [hg, not_true_eq_false, if_false]
    cases hf : findWithIdx (fun x => x.uuid == tid) s.trackers with
    | none => exact ⟨pre, mid, ph, hdec, hcur, hpre, hmid, hphs, hpht, hdist⟩
    | some r =>
      obtain ⟨i, t0⟩ := r
      dsimp only
      have htmp : t0.temporary = false := hk i t0 hf
      rw [hdec, findWithIdx_append] at hf
      cases hfb : findWithIdx (fun x => x.uuid == tid) (pre ++ mid) with
      | none =>
          rw [hfb] at hf
          cases hpph : (fun x : UiTracker => x.uuid == tid) ph with
          | false =>
              rw [findWithIdx, if_neg (by simp_all), findWithIdx] at hf
              simp at hf
          | true =>
              rw [findWithIdx, if_pos (by simp_all)] at hf
              simp only [Option.map_some', Option.some.injEq] at hf
              obtain ⟨hi, ht0⟩ :=
                (Prod.mk.injEq .. ▸ hf : (pre ++ mid).length + 0 = i ∧ ph = t0)
              subst ht0
              rw [hpht] at htmp
              exact absurd htmp (by simp)
      | some rb =>
          rw [hfb] at hf
          simp only [Option.some.injEq] at hf
          rw [hf] at hfb
          have hilt : i < (pre ++ mid).length := by
            obtain ⟨_, l1, l2, hbdec, hlen, _⟩ := findWithIdx_some hfb
            rw [hbdec, ← hlen]
            simp [List.length_append]
          rw [findWithIdx_append] at hfb
          cases hfp : findWithIdx (fun x => x.uuid == tid) pre with
          | some rp =>
              rw [hfp] at hfb
              simp only [Option.some.injEq] at hfb
              rw [hfb] at hfp
              obtain ⟨_, l1, l2, hpdec, hlen, _⟩ := findWithIdx_some hfp
              have hlt : i < pre.length := by
                rw [hpdec, ← hlen]
                simp [List.length_append]
              have hlen2 : (pre.eraseIdx i).length = pre.length - 1 := by
                rw [List.length_eraseIdx, if_pos hlt]
              (repeat' split) <;>
                first
                  | (exfalso; omega)
                  | · refine ⟨pre.eraseIdx i, mid, ph, ?_, ?_, ?_, hmid, hphs, hpht, hdist⟩
                      · show s.trackers.eraseIdx i = _
                        rw [hdec, List.eraseIdx_append_of_lt_length hilt,
                          List.eraseIdx_append_of_lt_length hlt]
                      · show s.firstRealTrackerIndex - 1 = _
                        rw [hcur, hlen2]
                      · intro x hx
                        exact hpre x ((List.eraseIdx_sublist pre i).subset hx)
          | none =>
              rw [hfp] at hfb
              cases hfm : findWithIdx (fun x => x.uuid == tid) mid with
              | none => rw [hfm] at hfb; simp at hfb
              | some rm =>
                  rw [hfm] at hfb
                  simp only [Option.map_some', Option.some.injEq] at hfb
                  obtain ⟨hi, hx⟩ :=
                    (Prod.mk.injEq .. ▸ hfb : pre.length + rm.1 = i ∧ rm.2 = t0)
                  obtain ⟨_, m1, m2, hmdec, hmlen, _⟩ := findWithIdx_some hfm
                  have hjlt : rm.1 < mid.length := by
                    rw [hmdec, ← hmlen]
                    simp [List.length_append]
                  have hige : pre.length ≤ i := by omega
                  (repeat' split) <;>
                    first
                      | (exfalso; omega)
                      | · refine ⟨pre, mid.eraseIdx rm.1, ph, ?_, hcur, hpre, ?_,
                            hphs, hpht, hdist⟩
                          · show s.trackers.eraseIdx i = _
                            rw [hdec, List.eraseIdx_append_of_lt_length hilt,
                              List.eraseIdx_append_of_length_le hige]
                            have hsub : i - pre.length = rm.1 := by omega
                            rw [hsub]
                          · intro x hx
                            exact hmid x ((List.eraseIdx_sublist mid rm.1).subset hx)

theorem segA_pushAura (env : Env) (s : State) (au : Aura) (sh : String)
    (t : SyncTo) (hp : SegA s) : SegA (pushAura env s au sh t).state := by
  obtain ⟨pre, mid, ph, hdec, hcur, hpre, hmid, hphs, hpht, hdist⟩ := hp
  simp only [pushAura]
  by_cases hg : hasEditAccess env s = true
  case neg =>
    rw [if_pos hg]
    exact ⟨pre, mid, ph, hdec, hcur, hpre, hmid, hphs, hpht, hdist⟩
  case pos =>
    simp only [hg, not_true_eq_false, if_false]
    by_cases h1 : s.uuid = some sh
    · rw [if_pos h1, forwardPushAura_state]
      refine ⟨pre, mid ++ [toUiAura au sh], ph, ?_, hcur, hpre, ?_, hphs, hpht, hdist⟩
      · show spliceInsert s.auras (s.auras.length - 1) (toUiAura au sh) = _
        rw [hdec, ← List.append_assoc, spliceInsert_before_last]
        simp
      · intro x hx
        rcases List.mem_append.mp hx with hx | hx
        · exact hmid x hx
        · simp only [List.mem_singleton] at hx
          subst hx
          exact ⟨h1.symm, rfl⟩
    · rw [if_neg h1]
      by_cases h2 : s.parentUuid = JsNullable.val sh
      · rw [if_pos h2, forwardPushAura_state]
        refine ⟨pre ++ [toUiAura au sh], mid, ph, ?_, ?_, ?_, hmid, hphs, hpht, hdist⟩
        · show spliceInsert s.auras s.firstRealAuraIndex (toUiAura au sh) = _
          rw [hdec, hcur, List.append_assoc, spliceInsert_at_left_length]
          simp
        · show s.firstRealAuraIndex + 1 = _
          rw [hcur]
          simp
        · intro x hx
          rcases List.mem_append.mp hx with hx | hx
          · exact hpre x hx
          · simp only [List.mem_singleton] at hx
            subst hx
            exact ⟨h2.symm, rfl⟩
      · rw [if_neg h2]
        exact ⟨pre, mid, ph, hdec, hcur, hpre, hmid, hphs, hpht, hdist⟩

theorem segA_removeAura (env : Env) (s : State) (aid : String) (t : SyncTo)
    (hk : ∀ i x, findWithIdx (fun y => y.uuid == aid) s.auras = some (i, x) →
      x.temporary = false)
    (hp : SegA s) : SegA (removeAura env s aid t).state := by
  obtain ⟨pre, mid, ph, hdec, hcur, hpre, hmid, hphs, hpht, hdist⟩ := hp
  simp only [removeAura]
  by_cases hg : hasEditAccess env s = true
  case neg =>
    rw [if_pos hg]
    exact ⟨pre, mid, ph, hdec, hcur, hpre, hmid, hphs, hpht, hdist⟩
  case pos =>
    simp only [hg, not_true_eq_false, if_false]
    cases hf : findWithIdx (fun x => x.uuid == aid) s.auras with
    | none => exact ⟨pre, mid, ph, hdec, hcur, hpre, hmid, hphs, hpht, hdist⟩
    | some r =>
      obtain ⟨i, t0⟩ := r
      dsimp only
      have htmp : t0.temporary = false := hk i t0 hf
      rw [hdec, findWithIdx_append] at hf
      cases hfb : findWithIdx (fun x => x.uuid == aid) (pre ++ mid) with
      | none =>
          rw [hfb] at hf
          cases hpph : (fun x : UiAura => x.uuid == aid) ph with
          | false =>
              rw [findWithIdx, if_neg (by simp_all), findWithIdx] at hf
              simp at hf
          | true =>
              rw [findWithIdx, if_pos (by simp_all)] at hf
              simp only [Option.map_some', Option.some.injEq] at hf
              obtain ⟨hi, ht0⟩ :=
                (Prod.mk.injEq .. ▸ hf : (pre ++ mid).length + 0 = i ∧ ph = t0)
              subst ht0
              rw [hpht] at htmp
              exact absurd htmp (by simp)
      | some rb =>
          rw [hfb] at hf
          simp only [Option.some.injEq] at hf
          rw [hf] at hfb
          have hilt : i < (pre ++ mid).length := by
            obtain ⟨_, l1, l2, hbdec, hlen, _⟩ := findWithIdx_some hfb
            rw [hbdec, ← hlen]
            simp [List.length_append]
          rw [findWithIdx_append] at hfb
          cases hfp : findWithIdx (fun x => x.uuid == aid) pre with
          | some rp =>
              rw [hfp] at hfb
              simp only [Option.some.injEq] at hfb
              rw [hfb] at hfp
              obtain ⟨_, l1, l2, hpdec, hlen, _⟩ := findWithIdx_some hfp
              have hlt : i < pre.length := by
                rw [hpdec, ← hlen]
                simp [List.length_append]
              have hlen2 : (pre.eraseIdx i).length = pre.length - 1 := by
                rw [List.length_eraseIdx, if_pos hlt]
              (repeat' split) <;>
                first
                  | (exfalso; omega)
                  | · refine ⟨pre.eraseIdx i, mid, ph, ?_, ?_, ?_, hmid, hphs, hpht, hdist⟩
                      · show s.auras.eraseIdx i = _
                        rw [hdec, List.eraseIdx_append_of_lt_length hilt,
                          List.eraseIdx_append_of_lt_length hlt]
                      · show s.firstRealAuraIndex - 1 = _
                        rw [hcur, hlen2]
                      · intro x hx
                        exact hpre x ((List.eraseIdx_sublist pre i).subset hx)
          | none =>
              rw [hfp] at hfb
              cases hfm : findWithIdx (fun x => x.uuid == aid) mid with
              | none => rw [hfm] at hfb; simp at hfb
              | some rm =>
                  rw [hfm] at hfb
                  simp only [Option.map_some', Option.some.injEq] at hfb
                  obtain ⟨hi, hx⟩ :=
                    (Prod.mk.injEq .. ▸ hfb : pre.length + rm.1 = i ∧ rm.2 = t0)
                  obtain ⟨_, m1, m2, hmdec, hmlen, _⟩ := findWithIdx_some hfm
                  have hjlt : rm.1 < mid.length := by
                    rw [hmdec, ← hmlen]
                    simp [List.length_append]
                  have hige : pre.length ≤ i := by omega
                  (repeat' split) <;>
                    first
                      | (exfalso; omega)
                      | · refine ⟨pre, mid.eraseIdx rm.1, ph, ?_, hcur, hpre, ?_,
                            hphs, hpht, hdist⟩
                          · show s.auras.eraseIdx i = _
                            rw [hdec, List.eraseIdx_append_of_lt_length hilt,
                              List.eraseIdx_append_of_length_le hige]
                            have hsub : i - pre.length = rm.1 := by omega
                            rw [hsub]
                          · intro x hx
                            exact hmid x ((List.eraseIdx_sublist mid rm.1).subset hx)


end ActiveShape

namespace ActiveShape

/-- Preservation of both segment invariants by push/remove operations that do
not remove the placeholder. -/
theorem seg_step (env : Env) (s : State) (op : Op)
    (hpr : isPushRemoveOp op = true)
    (hk : keepsPlaceholder s op = true) (ht : SegT s) (ha : SegA s) :
    SegT (applyOp env s op).state ∧ SegA (applyOp env s op).state := by
  cases op with
  | pushTracker tr sh t =>
      exact ⟨segT_pushTracker env s tr sh t ht,
        SegA_of_eq (applyOp_auras_frame env s (Op.pushTracker tr sh t) rfl).1
          (applyOp_auras_frame env s (Op.pushTracker tr sh t) rfl).2
          (applyOp_parentUuid env s (Op.pushTracker tr sh t))
          (applyOp_uuid env s (Op.pushTracker tr sh t)) ha⟩
  | removeTracker tid t =>
      refine ⟨segT_removeTracker env s tid t ?_ ht,
        SegA_of_eq (applyOp_auras_frame env s (Op.removeTracker tid t) rfl).1
          (applyOp_auras_frame env s (Op.removeTracker tid t) rfl).2
          (applyOp_parentUuid env s (Op.removeTracker tid t))
          (applyOp_uuid env s (Op.removeTracker tid t)) ha⟩
      intro i x hf
      simp only [keepsPlaceholder, hf] at hk
      simpa using hk
  | pushAura au sh t =>
      exact ⟨SegT_of_eq (applyOp_trackers_frame env s (Op.pushAura au sh t) rfl).1
          (applyOp_trackers_frame env s (Op.pushAura au sh t) rfl).2
          (applyOp_parentUuid env s (Op.pushAura au sh t))
          (applyOp_uuid env s (Op.pushAura au sh t)) ht,
        segA_pushAura env s au sh t ha⟩
  | removeAura aid t =>
      refine ⟨SegT_of_eq (applyOp_trackers_frame env s (Op.removeAura aid t) rfl).1
          (applyOp_trackers_frame env s (Op.removeAura aid t) rfl).2
          (applyOp_parentUuid env s (Op.removeAura aid t))
          (applyOp_uuid env s (Op.removeAura aid t)) ht,
        segA_removeAura env s aid t ?_ ha⟩
      intro i x hf
      simp only [keepsPlaceholder, hf] at hk
      simpa using hk
  | setDefaultAccess a t => simp [isPushRemoveOp] at hpr
  | setDefaultEditAccess b t => simp [isPushRemoveOp] at hpr
  | setDefaultMovementAccess b t => simp [isPushRemoveOp] at hpr
  | setDefaultVisionAccess b t => simp [isPushRemoveOp] at hpr
  | addOwner o t => simp [isPushRemoveOp] at hpr
  | updateOwner o t => simp [isPushRemoveOp] at hpr
  | removeOwner u t => simp [isPushRemoveOp] at hpr
  | updateTracker tid d t => simp [isPushRemoveOp] at hpr
  | updateAura aid d t => simp [isPushRemoveOp] at hpr

/-- A sequence of push/remove operations none of which removes the
placeholder. -/
inductive PushRemoveSeqOk : State → List (Env × Op) → Prop where
  | nil (s : State) : PushRemoveSeqOk s []
  | cons {s : State} {env : Env} {op : Op} {rest : List (Env × Op)} :
      isPushRemoveOp op = true → keepsPlaceholder s op = true →
      PushRemoveSeqOk (applyOp env s op).state rest → PushRemoveSeqOk s ((env, op) :: rest)

theorem seg_run {s : State} {l : List (Env × Op)} (hseq : PushRemoveSeqOk s l)
    (ht : SegT s) (ha : SegA s) :
    SegT (applyOpsE s l) ∧ SegA (applyOpsE s l) := by
  induction l generalizing s with
  | nil => exact ⟨ht, ha⟩
  | cons p rest ih =>
      cases hseq with
      | cons hop hk hrest =>
          obtain ⟨ht', ha'⟩ := seg_step _ _ _ hop hk ht ha
          exact ih hrest ht' ha'

/-- `setActiveShape` establishes the tracker segment invariant, provided the
tracker cursor was zero beforehand (e.g. the initial or a cleared state) and
the resolved composite parent, if any, is a different object. -/
theorem segT_select (env : Env) (s : State) (shape : ShapeSnapshot)
    (hc : s.firstRealTrackerIndex = 0)
    (hd : ∀ p, getCompositeParent env shape.uuid = some p → p.uuid ≠ shape.uuid) :
    SegT (setActiveShape env s shape) := by
  simp only [setActiveShape]
  cases hp : getCompositeParent env shape.uuid with
  | none =>
      refine ⟨[], toUiTrackers shape.trackers shape.uuid,
        createEmptyTracker shape.uuid s.fresh, by simp, by simpa using hc, by simp, ?_,
        rfl, rfl, ?_⟩
      · intro x hx
        exact ⟨congrArg some (mem_toUiTrackers hx).1, (mem_toUiTrackers hx).2⟩
      · intro u hu
        simp
  | some p =>
      refine ⟨toUiTrackers p.trackers p.uuid, toUiTrackers shape.trackers shape.uuid,
        createEmptyTracker shape.uuid s.fresh, by simp, rfl, ?_, ?_, rfl, rfl, ?_⟩
      · intro x hx
        exact ⟨congrArg JsNullable.val (mem_toUiTrackers hx).1, (mem_toUiTrackers hx).2⟩
      · intro x hx
        exact ⟨congrArg some (mem_toUiTrackers hx).1, (mem_toUiTrackers hx).2⟩
      · intro u hu
        simp only [Option.some.injEq] at hu
        subst hu
        simp only [ne_eq, JsNullable.val.injEq]
        exact fun hpu => hd p hp (by rw [hpu])

/-- `setActiveShape` establishes the aura segment invariant under the same
preconditions. -/
theorem segA_select (env : Env) (s : State) (shape : ShapeSnapshot)
    (hc : s.firstRealAuraIndex = 0)
    (hd : ∀ p, getCompositeParent env shape.uuid = some p → p.uuid ≠ shape.uuid) :
    SegA (setActiveShape env s shape) := by
  simp only [setActiveShape]
  cases hp : getCompositeParent env shape.uuid with
  | none =>
      refine ⟨[], toUiAuras shape.auras shape.uuid,
        createEmptyAura shape.uuid (s.fresh + 1), by simp, by simpa using hc, by simp, ?_,
        rfl, rfl, ?_⟩
      · intro x hx
        exact ⟨congrArg some (mem_toUiAuras hx).1, (mem_toUiAuras hx).2⟩
      · intro u hu
        simp
  | some p =>
      refine ⟨toUiAuras p.auras p.uuid, toUiAuras shape.auras shape.uuid,
        createEmptyAura shape.uuid (s.fresh + 1), by simp, rfl, ?_, ?_, rfl, rfl, ?_⟩
      · intro x hx
        exact ⟨congrArg JsNullable.val (mem_toUiAuras hx).1, (mem_toUiAuras hx).2⟩
      · intro x hx
        exact ⟨congrArg some (mem_toUiAuras hx).1, (mem_toUiAuras hx).2⟩
      · intro u hu
        simp only [Option.some.injEq] at hu
        subst hu
        simp only [ne_eq, JsNullable.val.injEq]
        exact fun hpu => hd p hp (by rw [hpu])

/-- The segment invariant pins the cursor to the number of parent-owned
entries in the list. -/
theorem segT_count {s : State} (h : SegT s) :
    s.firstRealTrackerIndex =
      s.trackers.countP (fun x => decide (JsNullable.val x.shape = s.parentUuid)) := by
  obtain ⟨pre, mid, ph, hdec, hcur, hpre, hmid, hphs, hpht, hdist⟩ := h
  have hpc : pre.countP (fun x => decide (JsNullable.val x.shape = s.parentUuid)) =
      pre.length := List.countP_eq_length.mpr (fun x hx => by simp [(hpre x hx).1])
  have hmc : mid.countP (fun x => decide (JsNullable.val x.shape = s.parentUuid)) = 0 :=
    List.countP_eq_zero.mpr (fun x hx => by
      have hd := hdist x.shape (hmid x hx).1.symm
      simp only [decide_eq_true_eq]
      exact fun hc => hd hc.symm)
  have hph0 : List.countP (fun x => decide (JsNullable.val x.shape = s.parentUuid)) [ph] = 0 := by
    have hd := hdist ph.shape hphs.symm
    simp only [List.countP_cons, List.countP_nil, decide_eq_true_eq]
    simp only [Nat.zero_add]
    rw [if_neg (fun hc => hd hc.symm)]
  rw [hdec, List.countP_append, List.countP_append, hpc, hmc, hph0, hcur]
  omega

/-- The aura segment invariant pins the aura cursor likewise. -/
theorem segA_count {s : State} (h : SegA s) :
    s.firstRealAuraIndex =
      s.auras.countP (fun x => decide (JsNullable.val x.shape = s.parentUuid)) := by
  obtain ⟨pre, mid, ph, hdec, hcur, hpre, hmid, hphs, hpht, hdist⟩ := h
  have hpc : pre.countP (fun x => decide (JsNullable.val x.shape = s.parentUuid)) =
      pre.length := List.countP_eq_length.mpr (fun x hx => by simp [(hpre x hx).1])
  have hmc : mid.countP (fun x => decide (JsNullable.val x.shape = s.parentUuid)) = 0 :=
    List.countP_eq_zero.mpr (fun x hx => by
      have hd := hdist x.shape (hmid x hx).1.symm
      simp only [decide_eq_true_eq]
      exact fun hc => hd hc.symm)
  have hph0 : List.countP (fun x => decide (JsNullable.val x.shape = s.parentUuid)) [ph] = 0 := by
    have hd := hdist ph.shape hphs.symm
    simp only [List.countP_cons, List.countP_nil, decide_eq_true_eq]
    simp only [Nat.zero_add]
    rw [if_neg (fun hc => hd hc.symm)]
  rw [hdec, List.countP_append, List.countP_append, hpc, hmc, hph0, hcur]
  omega

/-- C5 (amended): for every sequence of `pushTracker`/`removeTracker` (and
`pushAura`/`removeAura`) operations applied to a state produced by `select`
from a state with zeroed cursors (e.g. initial or cleared), with the resolved
parent (if any) a different object, and with no remove targeting the trailing
placeholder, `firstRealTrackerIndex` (resp. `firstRealAuraIndex`) always
equals the number of entries of the corresponding list whose `shape` field is
the recorded parent uuid. -/
theorem cursor_eq_parent_count (env0 : Env) (s0 : State) (shape : ShapeSnapshot)
    (l : List (Env × Op))
    (hct : s0.firstRealTrackerIndex = 0) (hca : s0.firstRealAuraIndex = 0)
    (hd : ∀ p, getCompositeParent env0 shape.uuid = some p → p.uuid ≠ shape.uuid)
    (hops : PushRemoveSeqOk (setActiveShape env0 s0 shape) l) :
    (applyOpsE (setActiveShape env0 s0 shape) l).firstRealTrackerIndex =
      (applyOpsE (setActiveShape env0 s0 shape) l).trackers.countP
        (fun x => decide (JsNullable.val x.shape =
          (applyOpsE (setActiveShape env0 s0 shape) l).parentUuid)) ∧
    (applyOpsE (setActiveShape env0 s0 shape) l).firstRealAuraIndex =
      (applyOpsE (setActiveShape env0 s0 shape) l).auras.countP
        (fun x => decide (JsNullable.val x.shape =
          (applyOpsE (setActiveShape env0 s0 shape) l).parentUuid)) := by
  obtain ⟨ht, ha⟩ := seg_run hops (segT_select env0 s0 shape hct hd)
    (segA_select env0 s0 shape hca hd)
  exact ⟨segT_count ht, segA_count ha⟩

end ActiveShape

namespace ActiveShape

/-- A well-behaved push/remove sequence on the composite child `B`: push a
tracker owned by the parent `P`, then remove the parent's original tracker. -/
def c5ops : List (Env × Op) :=
  [(envB, Op.pushTracker ⟨"PT2", "mp", 2, 4, true⟩ "P" SyncTo.ui),
   (envB, Op.removeTracker "PT" SyncTo.ui)]

/-- Witness for C5 (amended) on the composite child `B` with parent `P`. -/
theorem cursor_eq_parent_count_witness :
    (applyOpsE (setActiveShape envB initState snapB) c5ops).firstRealTrackerIndex =
      (applyOpsE (setActiveShape envB initState snapB) c5ops).trackers.countP
        (fun x => decide (JsNullable.val x.shape =
          (applyOpsE (setActiveShape envB initState snapB) c5ops).parentUuid)) ∧
    (applyOpsE (setActiveShape envB initState snapB) c5ops).firstRealAuraIndex =
      (applyOpsE (setActiveShape envB initState snapB) c5ops).auras.countP
        (fun x => decide (JsNullable.val x.shape =
          (applyOpsE (setActiveShape envB initState snapB) c5ops).parentUuid)) :=
  cursor_eq_parent_count envB initState snapB c5ops rfl rfl
    (by
      intro p hp
      simp only [getCompositeParent, envB, envDM, snapB, List.find?, snapP] at hp
      simp only [beq_self_eq_true, if_true, Option.map_some', Option.some.injEq] at hp
      subst hp
      decide)
    (PushRemoveSeqOk.cons (by decide) (by decide)
      (PushRemoveSeqOk.cons (by decide) (by decide) (PushRemoveSeqOk.nil _)))

/-- The sequence refuting C5 as stated: remove the placeholder, push an
own-tracker (which, with the placeholder gone, lands *before* the parent
segment), then remove it again - decrementing the cursor although a parent
entry remains. -/
def c5cexOps : List (Env × Op) :=
  [(envB, Op.removeTracker "empty-tracker-0" SyncTo.ui),
   (envB, Op.pushTracker ⟨"T1", "hp", 1, 1, true⟩ "B" SyncTo.ui),
   (envB, Op.removeTracker "T1" SyncTo.ui)]

/-- C5 as stated is false: after this push/remove sequence on a state
produced by `select`, the cursor is 0 while one entry owned by the parent is
still in the list. -/
theorem cursor_mismatch_cex :
    (applyOpsE (setActiveShape envB initState snapB) c5cexOps).firstRealTrackerIndex = 0 ∧
    (applyOpsE (setActiveShape envB initState snapB) c5cexOps).trackers.countP
      (fun x => decide (JsNullable.val x.shape =
        (applyOpsE (setActiveShape envB initState snapB) c5cexOps).parentUuid)) = 1 := by
  constructor
  · rfl
  · rfl

/-! ## C9: what `setActiveShape` builds -/

/-- C9: the claim is right and the code is wrong.  `setActiveShape` only
writes the two cursors inside the `if (parent !== undefined)` block, so
selecting a shape with no composite parent right after a composite selection
leaves the stale cursor of the previous selection: here `firstRealTrackerIndex`
stays 1 although the new selection has no parent and the parent-segment
length is 0. -/
theorem setActiveShape_stale_cursor :
    (setActiveShape envB (setActiveShape envB initState snapB) snapA).parentUuid =
      JsNullable.nullV ∧
    (setActiveShape envB (setActiveShape envB initState snapB) snapA).firstRealTrackerIndex
      = 1 ∧
    (setActiveShape envB (setActiveShape envB initState snapB) snapA).trackers.countP
      (fun x => decide (JsNullable.val x.shape =
        (setActiveShape envB (setActiveShape envB initState snapB) snapA).parentUuid)) = 0 := by
  refine ⟨rfl, rfl, rfl⟩

end ActiveShape
